import Mathlib

/-!
Verification of the kana transliteration library.

Strings are modelled as `List Char` (Lean's `Char` is a Unicode scalar
value, as is Rust's `char`).  Each definition below is a direct
translation of the corresponding item of the source; byte-offset
slicing of the Rust scanners is represented by dropping the same number
of characters, which is equivalent because every slice in the source
happens at a character boundary of the consumed chunk.
-/

set_option maxRecDepth 1000000

namespace Kana

/-! ## Constants (`constants.rs`) -/

/-- Codepoint for the first Hiragana character (`ぁ`). -/
def HIRAGANA_START : Nat := 0x3041

/-- Codepoint for the last Hiragana character (`ゖ`). -/
def HIRAGANA_END : Nat := 0x3096

/-- Codepoint for the first Katakana character (`ァ`). -/
def KATAKANA_START : Nat := 0x30A1

/-- Codepoint for the last Katakana character (`ヺ`). -/
def KATAKANA_END : Nat := 0x30FA

/-- Codepoint for the first small Katakana character (`ㇰ`). -/
def SMALL_KATAKANA_START : Nat := 0x31F0

/-- Codepoint for the last small Katakana character (`ㇿ`). -/
def SMALL_KATAKANA_END : Nat := 0x31FF

/-- Codepoint for the first halfwidth Katakana character (`ｦ`). -/
def HALF_KATAKANA_START : Nat := 0xFF66

/-- Codepoint for the last halfwidth Katakana character (`ﾝ`). -/
def HALF_KATAKANA_END : Nat := 0xFF9D

/-- Last Katakana that converts directly to Hiragana by offsetting (`ヶ`). -/
def KATAKANA_TO_HIRAGANA_END : Nat := 0x30F6

/-- Offset subtracted from a Katakana character to get the Hiragana. -/
def KATAKANA_TO_HIRAGANA_OFFSET_SUB : Nat := KATAKANA_START - HIRAGANA_START

/-- First codepoint of the CJK Unified Ideographs block (`一`). -/
def KANJI_START : Nat := 0x4E00

/-- Last codepoint of the CJK Unified Ideographs block (`龯`). -/
def KANJI_END : Nat := 0x9FAF

/-- First codepoint of CJK Unified Ideographs Extension A. -/
def KANJI_START_A : Nat := 0x3400

/-- Last codepoint of CJK Unified Ideographs Extension A. -/
def KANJI_END_A : Nat := 0x4DB5

/-- First codepoint of CJK Unified Ideographs Extension B. -/
def KANJI_START_B : Nat := 0x20000

/-- Last codepoint of CJK Unified Ideographs Extension B. -/
def KANJI_END_B : Nat := 0x2A6D6

/-- First codepoint of CJK Unified Ideographs Extension C. -/
def KANJI_START_C : Nat := 0x2A700

/-- Last codepoint of CJK Unified Ideographs Extension C. -/
def KANJI_END_C : Nat := 0x2B734

/-- First codepoint of CJK Unified Ideographs Extension D. -/
def KANJI_START_D : Nat := 0x2B740

/-- Last codepoint of CJK Unified Ideographs Extension D. -/
def KANJI_END_D : Nat := 0x2B81D

/-! ## Utility functions (`util.rs`) -/

/-- Check if the character is in the given range (inclusive); `char_in_range`. -/
def char_in_range (c : Char) (start finish : Nat) : Bool :=
  start ≤ c.toNat && c.toNat ≤ finish

/-- Returns true if the character is a Romaji consonant; `is_consonant`.
The Rust source is a `match` over exactly these character literals. -/
def is_consonant (c : Char) (include_y : Bool) : Bool :=
  (c = 'b' || c = 'c' || c = 'd' || c = 'f' || c = 'g' || c = 'h' || c = 'j'
    || c = 'k' || c = 'l' || c = 'm')
  || (c = 'B' || c = 'C' || c = 'D' || c = 'F' || c = 'G' || c = 'H' || c = 'J'
    || c = 'K' || c = 'L' || c = 'M')
  || (c = 'n' || c = 'p' || c = 'q' || c = 'r' || c = 's' || c = 't' || c = 'v'
    || c = 'w' || c = 'x' || c = 'z')
  || (c = 'N' || c = 'P' || c = 'Q' || c = 'R' || c = 'S' || c = 'T' || c = 'V'
    || c = 'W' || c = 'X' || c = 'Z')
  || ((c = 'y' || c = 'Y') && include_y)

/-- Simple conversion of Hiragana to Katakana; `hiragana_to_katakana`.
Characters in the shiftable range get the block offset added (the source
uses an unchecked conversion; `Char.ofNat` agrees with it whenever the
result is a valid scalar value, which is proved below).  The two Hiragana
iteration marks `ゝ` and `ゞ` are remapped to their Katakana forms. -/
def hiragana_to_katakana (c : Char) : Char :=
  if char_in_range c (KATAKANA_START - KATAKANA_TO_HIRAGANA_OFFSET_SUB)
      (KATAKANA_TO_HIRAGANA_END - KATAKANA_TO_HIRAGANA_OFFSET_SUB) then
    Char.ofNat (c.toNat + KATAKANA_TO_HIRAGANA_OFFSET_SUB)
  else if c = 'ゝ' then 'ヽ'
  else if c = 'ゞ' then 'ヾ'
  else c

/-- Converts a romaji syllable to the voiced equivalent; `romaji_to_voiced`.
Unknown syllables yield the empty string. -/
def romaji_to_voiced (input : List Char) : List Char :=
  if input = "ka".data then "ga".data
  else if input = "ki".data then "gi".data
  else if input = "ku".data then "gu".data
  else if input = "ke".data then "ge".data
  else if input = "ko".data then "go".data
  else if input = "sa".data then "za".data
  else if input = "shi".data then "ji".data
  else if input = "su".data then "zu".data
  else if input = "se".data then "ze".data
  else if input = "so".data then "zo".data
  else if input = "ta".data then "da".data
  else if input = "chi".data then "di".data
  else if input = "tsu".data then "du".data
  else if input = "te".data then "de".data
  else if input = "to".data then "do".data
  else if input = "ha".data then "ba".data
  else if input = "hi".data then "bi".data
  else if input = "fu".data then "bu".data
  else if input = "he".data then "be".data
  else if input = "ho".data then "bo".data
  else []

/-! ## Character tests (`is.rs`) -/

/-- Returns true for non-kana phonetic marks used intra word; `is_word_mark`. -/
def is_word_mark (chr : Char) : Bool :=
  chr = 'ー' || chr = '・' || chr = 'ヽ' || chr = 'ヾ' || chr = 'ゝ' || chr = 'ゞ'
    || chr = '゛' || chr = '゜'

/-- Returns true if the character is Hiragana; `is_hiragana`. -/
def is_hiragana (chr : Char) : Bool :=
  if chr = 'ゟ' then true
  else char_in_range chr HIRAGANA_START HIRAGANA_END

/-- Returns true if the character is Katakana; `is_katakana`. -/
def is_katakana (chr : Char) : Bool :=
  if chr = 'ヿ' then true
  else
    char_in_range chr KATAKANA_START KATAKANA_END
    || char_in_range chr SMALL_KATAKANA_START SMALL_KATAKANA_END
    || char_in_range chr HALF_KATAKANA_START HALF_KATAKANA_END

/-- Returns true if the character is a kanji; `is_kanji`. -/
def is_kanji (chr : Char) : Bool :=
  (KANJI_START ≤ chr.toNat && chr.toNat ≤ KANJI_END)
  || (KANJI_START_A ≤ chr.toNat && chr.toNat ≤ KANJI_END_A)
  || (KANJI_START_B ≤ chr.toNat && chr.toNat ≤ KANJI_END_B)
  || (KANJI_START_C ≤ chr.toNat && chr.toNat ≤ KANJI_END_C)
  || (KANJI_START_D ≤ chr.toNat && chr.toNat ≤ KANJI_END_D)

/-- Returns true if the character is hiragana, katakana or the prolonged
sound mark; `is_kana`. -/
def is_kana (chr : Char) : Bool :=
  is_hiragana chr || is_katakana chr || chr = 'ー' || chr = 'ｰ'

/-- Returns true if the character is kana or kanji; `is_letter`. -/
def is_letter (chr : Char) : Bool :=
  is_kana chr || is_kanji chr

/-! ## Range patterns (`ranges.rs`)

The source defines these as Rust match patterns; each is modelled as the
corresponding boolean membership test. -/

/-- Pattern for the prolonged sound mark and its halfwidth version;
`prolonged_mark_range`. -/
def prolonged_mark_range (c : Char) : Bool :=
  c = 'ー' || c = 'ｰ'

/-- Pattern for halfwidth Katakana letters; `katakana_half_range`.
The halfwidth prolonged sound mark U+FF70 is skipped. -/
def katakana_half_range (c : Char) : Bool :=
  (0xFF66 ≤ c.toNat && c.toNat ≤ 0xFF6F) || (0xFF71 ≤ c.toNat && c.toNat ≤ 0xFF9D)

/-- Pattern for Kanji ranges; `kanji_range`.  Covers the base CJK Unified
Ideographs block and the extension blocks A to F. -/
def kanji_range (c : Char) : Bool :=
  (0x4E00 ≤ c.toNat && c.toNat ≤ 0x9FAF)
  || (0x3400 ≤ c.toNat && c.toNat ≤ 0x4DB5)
  || (0x20000 ≤ c.toNat && c.toNat ≤ 0x2A6D6)
  || (0x2A700 ≤ c.toNat && c.toNat ≤ 0x2B734)
  || (0x2B740 ≤ c.toNat && c.toNat ≤ 0x2B81D)
  || (0x2B820 ≤ c.toNat && c.toNat ≤ 0x2CEAF)
  || (0x2CEB0 ≤ c.toNat && c.toNat ≤ 0x2EBEF)

/-! ## Case mapping

The table builder calls Rust's `str::to_uppercase`.  Over the character
sets that occur in the tables and in the claims (ASCII, the ten accented
Latin vowels of the Hepburn keys, kana, CJK punctuation and ideographs)
that function acts character by character: ASCII letters and the accented
vowels map to their counterparts and every other character is unchanged.
The two functions below implement exactly that simple mapping. -/

/-- Codepoint-level simple uppercase mapping (ASCII letters and the ten
accented vowels used by the Hepburn table keys; identity elsewhere). -/
def upper_code (n : Nat) : Nat :=
  if 0x61 ≤ n ∧ n ≤ 0x7A then n - 0x20
  else if n = 0xE2 then 0xC2        -- â Â
  else if n = 0xEA then 0xCA        -- ê Ê
  else if n = 0xEE then 0xCE        -- î Î
  else if n = 0xF4 then 0xD4        -- ô Ô
  else if n = 0xFB then 0xDB        -- û Û
  else if n = 0x101 then 0x100      -- ā Ā
  else if n = 0x113 then 0x112      -- ē Ē
  else if n = 0x12B then 0x12A      -- ī Ī
  else if n = 0x14D then 0x14C      -- ō Ō
  else if n = 0x16B then 0x16A      -- ū Ū
  else n

/-- Codepoint-level simple lowercase mapping, inverse on the same sets. -/
def lower_code (n : Nat) : Nat :=
  if 0x41 ≤ n ∧ n ≤ 0x5A then n + 0x20
  else if n = 0xC2 then 0xE2
  else if n = 0xCA then 0xEA
  else if n = 0xCE then 0xEE
  else if n = 0xD4 then 0xF4
  else if n = 0xDB then 0xFB
  else if n = 0x100 then 0x101
  else if n = 0x112 then 0x113
  else if n = 0x12A then 0x12B
  else if n = 0x14C then 0x14D
  else if n = 0x16A then 0x16B
  else n

/-- Character-level uppercase mapping (model of Rust `to_uppercase`). -/
def rust_to_upper (c : Char) : Char := Char.ofNat (upper_code c.toNat)

/-- Character-level lowercase mapping (model of Rust `to_lowercase`). -/
def rust_to_lower (c : Char) : Char := Char.ofNat (lower_code c.toNat)

/-! ## Table construction (`table.rs`)

The two conversion tables are Rust hash maps filled by `insert_all`,
which, for every physical entry, also inserts the Katakana variant of the
key (the key mapped through `hiragana_to_katakana`, when different) and
every upper/lower-case variant of the key (generated by the recursive
`gen_keys`).  `HashMap::insert` overwrites, so a map is modelled as the
list of inserted pairs in reverse chronological order and lookup takes
the first match: a later insertion of the same key wins, as in the
source. -/

/-- The ASCII apostrophe character (used by several table keys and by the
small-tsu fallback of `to_romaji`). -/
def apos : Char := Char.ofNat 0x27

/-- The ASCII left brace character. -/
def lbrace : Char := Char.ofNat 0x7B

/-- The ASCII right brace character. -/
def rbrace : Char := Char.ofNat 0x7D

/-- Table entry notation helper. -/
def e (k v : String) : List Char × List Char := (k.data, v.data)

/-- All case variants of a key, in the order `gen_keys` inserts them:
depth-first, lower-case character first, the upper-case character only
when it differs.  `lc` and `uc` are the remaining lower/upper characters
and `base` is the prefix built so far (the source asserts that `lc` and
`uc` have the same length, so the ragged case is unreachable). -/
def gen_keys_list : List Char → List Char → List Char → List (List Char)
  | [], _, base => [base]
  | _ :: _, [], base => [base]
  | l :: ls, u :: us, base =>
    gen_keys_list ls us (base ++ [l])
      ++ (if l ≠ u then gen_keys_list ls us (base ++ [u]) else [])

/-- All pairs inserted by one `insert_all` call, in reverse insertion
order (an earlier pair in this list overrides a later one on lookup):
the base pair first (hence last here), then the Katakana variant when it
differs, then the case variants — the whole uppercased key alone when it
is a single character, otherwise every variant from `gen_keys`. -/
def insert_all_pairs (key val : List Char) : List (List Char × List Char) :=
  let withKat :=
    if key.map hiragana_to_katakana ≠ key then
      (key.map hiragana_to_katakana, val) :: [(key, val)]
    else [(key, val)]
  if key.map rust_to_upper ≠ key then
    if (key.map rust_to_upper).length = 1 then
      (key.map rust_to_upper, val) :: withKat
    else
      ((gen_keys_list key (key.map rust_to_upper) []).reverse.map
        (fun k => (k, val))) ++ withKat
  else withKat

/-- Build a table from its physical entries via `insert_all`. -/
def build_table (entries : List (List Char × List Char)) :
    List (List Char × List Char) :=
  entries.foldl (fun m kv => insert_all_pairs kv.1 kv.2 ++ m) []

/-- First-match association lookup (`HashMap::get` on the model above). -/
def lookup_table : List (List Char × List Char) → List Char → Option (List Char)
  | [], _ => none
  | (k, v) :: rest, key => if key = k then some v else lookup_table rest key

/-- Tail-recursive maximum of the key lengths, accumulator first. -/
def max_chunk_go : Nat → List (List Char × List Char) → Nat
  | acc, [] => acc
  | acc, p :: rest =>
    match Nat.ble acc p.1.length with
    | true => max_chunk_go p.1.length rest
    | false => max_chunk_go acc rest

/-- Maximum key length of a table, in characters (the source folds
`std::cmp::max` over the keys of the hash map; the iteration order of a
hash map is unspecified and the maximum does not depend on it). -/
def max_chunk_of (m : List (List Char × List Char)) : Nat :=
  max_chunk_go 0 m

/-- Physical entries of the Romaji to Hiragana table, in source order;
the keys containing an ASCII apostrophe or brace are written with
explicit characters. -/
def to_hiragana_base : List (List Char × List Char) := [
  e "." "。", e "," "、", e ": " "：", e ":" "：", e "/" "・",
  e "!" "！", e "?" "？", e "~" "〜", e "-" "ー",
  e "‘" "「", e "’" "」", e "“" "『", e "”" "』",
  e "[" "［", e "]" "］", e "(" "（", e ")" "）",
  ([lbrace], "｛".data), ([rbrace], "｝".data),
  e "a" "あ", e "i" "い", e "u" "う", e "e" "え", e "o" "お",
  e "yi" "い", e "wu" "う", e "whu" "う",
  e "xa" "ぁ", e "xi" "ぃ", e "xu" "ぅ", e "xe" "ぇ", e "xo" "ぉ",
  e "xyi" "ぃ", e "xye" "ぇ", e "ye" "いぇ",
  e "wha" "うぁ", e "whi" "うぃ", e "whe" "うぇ", e "who" "うぉ",
  e "wi" "うぃ", e "we" "うぇ",
  e "va" "ゔぁ", e "vi" "ゔぃ", e "vu" "ゔ", e "ve" "ゔぇ", e "vo" "ゔぉ",
  e "vya" "ゔゃ", e "vyi" "ゔぃ", e "vyu" "ゔゅ", e "vye" "ゔぇ", e "vyo" "ゔょ",
  e "ka" "か", e "ki" "き", e "ku" "く", e "ke" "け", e "ko" "こ",
  e "lka" "ヵ", e "lke" "ヶ", e "xka" "ヵ", e "xke" "ヶ",
  e "kya" "きゃ", e "kyi" "きぃ", e "kyu" "きゅ", e "kye" "きぇ", e "kyo" "きょ",
  e "ca" "か", e "ci" "き", e "cu" "く", e "ce" "け", e "co" "こ",
  e "lca" "ヵ", e "lce" "ヶ", e "xca" "ヵ", e "xce" "ヶ",
  e "qya" "くゃ", e "qyu" "くゅ", e "qyo" "くょ",
  e "qwa" "くぁ", e "qwi" "くぃ", e "qwu" "くぅ", e "qwe" "くぇ", e "qwo" "くぉ",
  e "qa" "くぁ", e "qi" "くぃ", e "qe" "くぇ", e "qo" "くぉ",
  e "kwa" "くぁ", e "qyi" "くぃ", e "qye" "くぇ",
  e "ga" "が", e "gi" "ぎ", e "gu" "ぐ", e "ge" "げ", e "go" "ご",
  e "gya" "ぎゃ", e "gyi" "ぎぃ", e "gyu" "ぎゅ", e "gye" "ぎぇ", e "gyo" "ぎょ",
  e "gwa" "ぐぁ", e "gwi" "ぐぃ", e "gwu" "ぐぅ", e "gwe" "ぐぇ", e "gwo" "ぐぉ",
  e "sa" "さ", e "si" "し", e "shi" "し", e "su" "す", e "se" "せ", e "so" "そ",
  e "za" "ざ", e "zi" "じ", e "zu" "ず", e "ze" "ぜ", e "zo" "ぞ", e "ji" "じ",
  e "sya" "しゃ", e "syi" "しぃ", e "syu" "しゅ", e "sye" "しぇ", e "syo" "しょ",
  e "sha" "しゃ", e "shu" "しゅ", e "she" "しぇ", e "sho" "しょ",
  e "shya" "しゃ", e "shyu" "しゅ", e "shye" "しぇ", e "shyo" "しょ",
  e "swa" "すぁ", e "swi" "すぃ", e "swu" "すぅ", e "swe" "すぇ", e "swo" "すぉ",
  e "zya" "じゃ", e "zyi" "じぃ", e "zyu" "じゅ", e "zye" "じぇ", e "zyo" "じょ",
  e "ja" "じゃ", e "ju" "じゅ", e "je" "じぇ", e "jo" "じょ",
  e "jya" "じゃ", e "jyi" "じぃ", e "jyu" "じゅ", e "jye" "じぇ", e "jyo" "じょ",
  e "ta" "た", e "ti" "ち", e "tu" "つ", e "te" "て", e "to" "と",
  e "chi" "ち", e "tsu" "つ", e "ltu" "っ", e "xtu" "っ",
  e "tya" "ちゃ", e "tyi" "ちぃ", e "tyu" "ちゅ", e "tye" "ちぇ", e "tyo" "ちょ",
  e "cha" "ちゃ", e "chu" "ちゅ", e "che" "ちぇ", e "cho" "ちょ",
  e "cya" "ちゃ", e "cyi" "ちぃ", e "cyu" "ちゅ", e "cye" "ちぇ", e "cyo" "ちょ",
  e "chya" "ちゃ", e "chyu" "ちゅ", e "chye" "ちぇ", e "chyo" "ちょ",
  e "tsa" "つぁ", e "tsi" "つぃ", e "tse" "つぇ", e "tso" "つぉ",
  e "tha" "てゃ", e "thi" "てぃ", e "thu" "てゅ", e "the" "てぇ", e "tho" "てょ",
  e "twa" "とぁ", e "twi" "とぃ", e "twu" "とぅ", e "twe" "とぇ", e "two" "とぉ",
  e "da" "だ", e "di" "ぢ", e "du" "づ", e "de" "で", e "do" "ど",
  e "dya" "ぢゃ", e "dyi" "ぢぃ", e "dyu" "ぢゅ", e "dye" "ぢぇ", e "dyo" "ぢょ",
  e "dha" "でゃ", e "dhi" "でぃ", e "dhu" "でゅ", e "dhe" "でぇ", e "dho" "でょ",
  e "dwa" "どぁ", e "dwi" "どぃ", e "dwu" "どぅ", e "dwe" "どぇ", e "dwo" "どぉ",
  e "na" "な", e "ni" "に", e "nu" "ぬ", e "ne" "ね", e "no" "の",
  e "nya" "にゃ", e "nyi" "にぃ", e "nyu" "にゅ", e "nye" "にぇ", e "nyo" "にょ",
  e "ha" "は", e "hi" "ひ", e "hu" "ふ", e "he" "へ", e "ho" "ほ", e "fu" "ふ",
  e "hya" "ひゃ", e "hyi" "ひぃ", e "hyu" "ひゅ", e "hye" "ひぇ", e "hyo" "ひょ",
  e "fya" "ふゃ", e "fyu" "ふゅ", e "fyo" "ふょ",
  e "fwa" "ふぁ", e "fwi" "ふぃ", e "fwu" "ふぅ", e "fwe" "ふぇ", e "fwo" "ふぉ",
  e "fa" "ふぁ", e "fi" "ふぃ", e "fe" "ふぇ", e "fo" "ふぉ",
  e "fyi" "ふぃ", e "fye" "ふぇ",
  e "ba" "ば", e "bi" "び", e "bu" "ぶ", e "be" "べ", e "bo" "ぼ",
  e "bya" "びゃ", e "byi" "びぃ", e "byu" "びゅ", e "bye" "びぇ", e "byo" "びょ",
  e "pa" "ぱ", e "pi" "ぴ", e "pu" "ぷ", e "pe" "ぺ", e "po" "ぽ",
  e "pya" "ぴゃ", e "pyi" "ぴぃ", e "pyu" "ぴゅ", e "pye" "ぴぇ", e "pyo" "ぴょ",
  e "ma" "ま", e "mi" "み", e "mu" "む", e "me" "め", e "mo" "も",
  e "mya" "みゃ", e "myi" "みぃ", e "myu" "みゅ", e "mye" "みぇ", e "myo" "みょ",
  e "ya" "や", e "yu" "ゆ", e "yo" "よ",
  e "xya" "ゃ", e "xyu" "ゅ", e "xyo" "ょ",
  e "ra" "ら", e "ri" "り", e "ru" "る", e "re" "れ", e "ro" "ろ",
  e "rya" "りゃ", e "ryi" "りぃ", e "ryu" "りゅ", e "rye" "りぇ", e "ryo" "りょ",
  e "la" "ら", e "li" "り", e "lu" "る", e "le" "れ", e "lo" "ろ",
  e "lya" "りゃ", e "lyi" "りぃ", e "lyu" "りゅ", e "lye" "りぇ", e "lyo" "りょ",
  e "wa" "わ", e "wo" "を", e "lwe" "ゎ", e "xwa" "ゎ",
  e "ヷ" "ゔぁ", e "ヸ" "ゔぃ", e "ヹ" "ゔぇ", e "ヺ" "ゔぉ",
  e "ヿ" "こと", e "ゟ" "より",
  e "n" "ん",
  (['n', apos], "ん".data),
  e "n " "ん ",
  e "xn" "ん", e "ltsu" "っ",
  e "ā" "あー", e "ī" "いー", e "ū" "うー", e "ē" "えー", e "ō" "おー",
  e "â" "あー", e "î" "いー", e "û" "うー", e "ê" "えー", e "ô" "おー",
  (['n', apos, 'a'], "んあ".data), (['n', apos, 'i'], "んい".data),
  (['n', apos, 'u'], "んう".data), (['n', apos, 'e'], "んえ".data),
  (['n', apos, 'o'], "んお".data),
  (['n', apos, 'y', 'a'], "んや".data), (['n', apos, 'y', 'u'], "んゆ".data),
  (['n', apos, 'y', 'o'], "んよ".data),
  e "nwha" "んうぁ", e "nwho" "んうぉ", e "nwi" "んうぃ", e "nwe" "んうぇ",
  (['n', apos, 'y', 'e'], "んいぇ".data)]

/-- The Romaji to Hiragana lookup table: the physical entries above run
through `insert_all`. -/
def TO_HIRAGANA : List (List Char × List Char) := build_table to_hiragana_base

/-- Maximum character count of the keys in `TO_HIRAGANA`. -/
def TO_HIRAGANA_MAX_CHUNK : Nat := max_chunk_of TO_HIRAGANA

/-- Physical entries of the Kana to Romaji table, in source order. -/
def to_romaji_base : List (List Char × List Char) := [
  e "　" " ", e "！" "!", e "？" "?", e "。" ".", e "：" ": ",
  e "・" "/", e "、" ",", e "〜" "~", e "ー" "-",
  e "「" "‘", e "」" "’", e "『" "“", e "』" "”",
  e "［" "[", e "］" "]", e "（" "(", e "）" ")",
  ("｛".data, [lbrace]), ("｝".data, [rbrace]),
  e "＝" "-", e "゠" "-",
  e "あ" "a", e "い" "i", e "う" "u", e "え" "e", e "お" "o",
  e "ゔぁ" "va", e "ゔぃ" "vi", e "ゔ" "vu", e "ゔぇ" "ve", e "ゔぉ" "vo",
  e "か" "ka", e "き" "ki", e "きゃ" "kya", e "きぃ" "kyi", e "きゅ" "kyu",
  e "く" "ku", e "け" "ke", e "こ" "ko",
  e "が" "ga", e "ぎ" "gi", e "ぐ" "gu", e "げ" "ge", e "ご" "go",
  e "ぎゃ" "gya", e "ぎぃ" "gyi", e "ぎゅ" "gyu", e "ぎぇ" "gye", e "ぎょ" "gyo",
  e "さ" "sa", e "す" "su", e "せ" "se", e "そ" "so",
  e "ざ" "za", e "ず" "zu", e "ぜ" "ze", e "ぞ" "zo",
  e "し" "shi", e "しゃ" "sha", e "しゅ" "shu", e "しょ" "sho",
  e "じ" "ji", e "じゃ" "ja", e "じゅ" "ju", e "じょ" "jo",
  e "た" "ta", e "ち" "chi", e "ちゃ" "cha", e "ちゅ" "chu", e "ちょ" "cho",
  e "つ" "tsu", e "て" "te", e "と" "to",
  e "だ" "da", e "ぢ" "di", e "づ" "du", e "で" "de", e "ど" "do",
  e "な" "na", e "に" "ni", e "にゃ" "nya", e "にゅ" "nyu", e "にょ" "nyo",
  e "ぬ" "nu", e "ね" "ne", e "の" "no",
  e "は" "ha", e "ひ" "hi", e "ふ" "fu", e "へ" "he", e "ほ" "ho",
  e "ひゃ" "hya", e "ひゅ" "hyu", e "ひょ" "hyo",
  e "ふぁ" "fa", e "ふぃ" "fi", e "ふぇ" "fe", e "ふぉ" "fo",
  e "ば" "ba", e "び" "bi", e "ぶ" "bu", e "べ" "be", e "ぼ" "bo",
  e "びゃ" "bya", e "びゅ" "byu", e "びょ" "byo",
  e "ぱ" "pa", e "ぴ" "pi", e "ぷ" "pu", e "ぺ" "pe", e "ぽ" "po",
  e "ぴゃ" "pya", e "ぴゅ" "pyu", e "ぴょ" "pyo",
  e "ま" "ma", e "み" "mi", e "む" "mu", e "め" "me", e "も" "mo",
  e "みゃ" "mya", e "みゅ" "myu", e "みょ" "myo",
  e "や" "ya", e "ゆ" "yu", e "よ" "yo",
  e "ら" "ra", e "り" "ri", e "る" "ru", e "れ" "re", e "ろ" "ro",
  e "りゃ" "rya", e "りゅ" "ryu", e "りょ" "ryo",
  e "わ" "wa", e "を" "wo", e "ん" "n",
  e "ゐ" "wi", e "ゑ" "we",
  e "ヷ" "va", e "ヸ" "vi", e "ヹ" "ve", e "ヺ" "vo",
  e "ヿ" "koto", e "ゟ" "yori", e "〼" "masu",
  e "きぇ" "kye", e "きょ" "kyo", e "じぃ" "jyi", e "じぇ" "jye",
  e "ちぃ" "cyi", e "ちぇ" "che", e "ひぃ" "hyi", e "ひぇ" "hye",
  e "びぃ" "byi", e "びぇ" "bye", e "ぴぃ" "pyi", e "ぴぇ" "pye",
  e "みぇ" "mye", e "みぃ" "myi", e "りぃ" "ryi", e "りぇ" "rye",
  e "にぃ" "nyi", e "にぇ" "nye", e "しぃ" "syi", e "しぇ" "she",
  e "いぇ" "ye", e "うぁ" "wha", e "うぉ" "who", e "うぃ" "wi", e "うぇ" "we",
  e "ゔゃ" "vya", e "ゔゅ" "vyu", e "ゔょ" "vyo",
  e "すぁ" "swa", e "すぃ" "swi", e "すぅ" "swu", e "すぇ" "swe", e "すぉ" "swo",
  e "くゃ" "qya", e "くゅ" "qyu", e "くょ" "qyo",
  e "くぁ" "qwa", e "くぃ" "qwi", e "くぅ" "qwu", e "くぇ" "qwe", e "くぉ" "qwo",
  e "ぐぁ" "gwa", e "ぐぃ" "gwi", e "ぐぅ" "gwu", e "ぐぇ" "gwe", e "ぐぉ" "gwo",
  e "つぁ" "tsa", e "つぃ" "tsi", e "つぇ" "tse", e "つぉ" "tso",
  e "てゃ" "tha", e "てぃ" "thi", e "てゅ" "thu", e "てぇ" "the", e "てょ" "tho",
  e "とぁ" "twa", e "とぃ" "twi", e "とぅ" "twu", e "とぇ" "twe", e "とぉ" "two",
  e "ぢゃ" "dya", e "ぢぃ" "dyi", e "ぢゅ" "dyu", e "ぢぇ" "dye", e "ぢょ" "dyo",
  e "でゃ" "dha", e "でぃ" "dhi", e "でゅ" "dhu", e "でぇ" "dhe", e "でょ" "dho",
  e "どぁ" "dwa", e "どぃ" "dwi", e "どぅ" "dwu", e "どぇ" "dwe", e "どぉ" "dwo",
  e "ふぅ" "fwu", e "ふゃ" "fya", e "ふゅ" "fyu", e "ふょ" "fyo",
  e "ぁ" "a", e "ぃ" "i", e "ぇ" "e", e "ぅ" "u", e "ぉ" "o",
  e "ゃ" "ya", e "ゅ" "yu", e "ょ" "yo",
  e "っ" "~tsu",
  e "ゕ" "ka", e "ゖ" "ka", e "ゎ" "wa",
  ("んあ".data, ['n', apos, 'a']), ("んい".data, ['n', apos, 'i']),
  ("んう".data, ['n', apos, 'u']), ("んえ".data, ['n', apos, 'e']),
  ("んお".data, ['n', apos, 'o']),
  ("んや".data, ['n', apos, 'y', 'a']), ("んゆ".data, ['n', apos, 'y', 'u']),
  ("んよ".data, ['n', apos, 'y', 'o']),
  e "んうぁ" "nwha", e "んうぉ" "nwho", e "んうぃ" "nwi", e "んうぇ" "nwe",
  ("んいぇ".data, ['n', apos, 'y', 'e']),
  e "あー" "ā", e "いー" "ī", e "うー" "ū", e "えー" "ē", e "おー" "ō"]

/-- Extra Roman character entries merged into the Kana to Romaji table
after the base table is built (plain inserts, without `insert_all`). -/
def to_romaji_extra : List (List Char × List Char) := [
  e "Ａ" "A", e "Ｂ" "B", e "Ｃ" "C", e "Ｄ" "D", e "Ｅ" "E", e "Ｆ" "F",
  e "Ｇ" "G", e "Ｈ" "H", e "Ｉ" "I", e "Ｊ" "J", e "Ｋ" "K", e "Ｌ" "L",
  e "Ｍ" "M", e "Ｎ" "N", e "Ｏ" "O", e "Ｐ" "P", e "Ｑ" "Q", e "Ｒ" "R",
  e "Ｓ" "S", e "Ｔ" "T", e "Ｕ" "U", e "Ｖ" "V", e "Ｗ" "W", e "Ｘ" "X",
  e "Ｙ" "Y", e "Ｚ" "Z",
  e "ａ" "a", e "ｂ" "b", e "ｃ" "c", e "ｄ" "d", e "ｅ" "e", e "ｆ" "f",
  e "ｇ" "g", e "ｈ" "h", e "ｉ" "i", e "ｊ" "j", e "ｋ" "k", e "ｌ" "l",
  e "ｍ" "m", e "ｎ" "n", e "ｏ" "o", e "ｐ" "p", e "ｑ" "q", e "ｒ" "r",
  e "ｓ" "s", e "ｔ" "t", e "ｕ" "u", e "ｖ" "v", e "ｗ" "w", e "ｘ" "x",
  e "ｙ" "y", e "ｚ" "z",
  e "０" "0", e "１" "1", e "２" "2", e "３" "3", e "４" "4",
  e "５" "5", e "６" "6", e "７" "7", e "８" "8", e "９" "9"]

/-- The Kana to Romaji lookup table: the base entries run through
`insert_all` (which adds the Katakana variant of every Hiragana key) and
the extra Roman entries are then inserted on top. -/
def TO_ROMAJI : List (List Char × List Char) :=
  to_romaji_extra.foldl (fun m kv => kv :: m) (build_table to_romaji_base)

/-- First characters of all keys in `TO_ROMAJI` (the fast membership
pre-filter of `to_romaji`). -/
def TO_ROMAJI_CHARS : List Char := TO_ROMAJI.filterMap (fun p => p.1.head?)

/-- Maximum character count of the keys in `TO_ROMAJI`. -/
def TO_ROMAJI_MAX_CHUNK : Nat := max_chunk_of TO_ROMAJI

/-! ## Conversion functions (`to.rs`)

The Rust scanners walk a string slice, consuming at least one character
per iteration; the byte length `skip` sliced off the front is always the
byte length of the consumed characters, so the loop is modelled by
structural recursion that drops the same number of characters.  A fuel
argument (initialised with the input length, which the progress lemmas
below show is always enough) makes the recursion structural, so all the
definitions compute by kernel reduction. -/

/-- Greedy longest-match search: try the prefixes of `src` of `len`
characters for `len` from the given maximum down to 1, as the lookup
loops of `to_hiragana` and `to_romaji` do (`get_prefix` returns at most
`n` characters, i.e. `List.take`). -/
def find_chunk (m : List (List Char × List Char)) (src : List Char) :
    Nat → Option (List Char × List Char)
  | 0 => none
  | len + 1 =>
    match lookup_table m (src.take (len + 1)) with
    | some v => some (src.take (len + 1), v)
    | none => find_chunk m src len

/-- One iteration of the `to_hiragana` loop on input `next :: rest`:
returns the characters pushed to the output and the number of characters
consumed beyond `next` itself.  The double-consonant test compares the
first two bytes of the remaining input; for a multi-byte `next` the
first byte is not an ASCII consonant and for an ASCII `next` the second
byte equals the first exactly when the following character is the same
ASCII character, so the byte test is equivalent to the character test
used here (the consonant predicate only accepts ASCII). -/
def to_hiragana_step (next : Char) (rest : List Char) : List Char × Nat :=
  if char_in_range next KATAKANA_START KATAKANA_TO_HIRAGANA_END then
    -- direct Katakana to Hiragana conversion by offsetting the codepoint
    ([Char.ofNat (next.toNat - KATAKANA_TO_HIRAGANA_OFFSET_SUB)], 0)
  else if char_in_range next HIRAGANA_START HIRAGANA_END then
    -- hiragana skips the lookup block and passes through
    ([next], 0)
  else if next ≠ 'n' ∧ next ≠ 'N' ∧ is_consonant next true = true
      ∧ rest.head? = some next then
    -- the double consonant case
    (['っ'], 0)
  else
    -- multi-char lookup keys either start with A-Z or a colon
    let m := if next = ':' ∨ (0x61 ≤ next.toNat ∧ next.toNat ≤ 0x7A)
        ∨ (0x41 ≤ next.toNat ∧ next.toNat ≤ 0x5A) then
        TO_HIRAGANA_MAX_CHUNK else 1
    match find_chunk TO_HIRAGANA (next :: rest) m with
    | some (chunk, kana) => (kana, chunk.length - 1)
    | none => ([next], 0)

/-- Fuel-driven loop of `to_hiragana`; the zero-fuel case is unreachable
whenever the fuel is at least the input length. -/
def to_hiragana_go : Nat → List Char → List Char
  | _, [] => []
  | 0, _ :: _ => []
  | fuel + 1, next :: rest =>
    let p := to_hiragana_step next rest
    p.1 ++ to_hiragana_go fuel (rest.drop p.2)

/-- Converts the input string into hiragana; `to_hiragana`.  Unknown
characters just pass through unchanged. -/
def to_hiragana (input : List Char) : List Char :=
  to_hiragana_go input.length input

/-- Converts the input string into katakana; `to_katakana`: `to_hiragana`
followed by the per-character Hiragana to Katakana shift. -/
def to_katakana (input : List Char) : List Char :=
  (to_hiragana input).map hiragana_to_katakana

/-- Representation for a small tsu that is not a double consonant. -/
def SMALL_TSU_REPR : Char := apos

/-- Representation for an invalid iteration mark. -/
def INVALID_ITERATION_MARK : Char := '?'

/-- One iteration of the `to_romaji` loop on `next :: rest` in state
`(was_small_tsu, last_romaji)`: returns the emitted characters, the new
state and the number of characters consumed beyond `next`. -/
def to_romaji_step (was_small_tsu : Bool) (last_romaji : List Char)
    (next : Char) (rest : List Char) : List Char × Bool × List Char × Nat :=
  if next = 'っ' ∨ next = 'ッ' then
    -- case of repeated small tsu emits the representation for the first
    ((if was_small_tsu then [SMALL_TSU_REPR] else []), true, last_romaji, 0)
  else if next = 'ヽ' ∨ next = 'ゝ' ∨ next = 'ヾ' ∨ next = 'ゞ' then
    -- iteration marks repeat the last syllable
    let voiced := next = 'ヾ' ∨ next = 'ゞ'
    let rep1 := if last_romaji = "yori".data then "ri".data
      else if last_romaji = "koto".data then "to".data
      else last_romaji
    let rep := if voiced then
        (let v := romaji_to_voiced rep1
        if v.length > 0 then v else rep1)
      else rep1
    if rep.length > 0 then (rep, was_small_tsu, rep, 0)
    else ([INVALID_ITERATION_MARK], was_small_tsu, last_romaji, 0)
  else if TO_ROMAJI_CHARS.contains next then
    match find_chunk TO_ROMAJI (next :: rest) TO_ROMAJI_MAX_CHUNK with
    | some (chunk, romaji) =>
      let pre := if was_small_tsu then
          (match romaji.head? with
            | some doubled =>
              if is_consonant doubled true then [doubled] else [SMALL_TSU_REPR]
            | none => [SMALL_TSU_REPR])
        else []
      (pre ++ romaji, false, romaji, chunk.length - 1)
    | none =>
      ((if was_small_tsu then [SMALL_TSU_REPR] else []) ++ [next], false,
        last_romaji, 0)
  else
    ((if was_small_tsu then [SMALL_TSU_REPR] else []) ++ [next], false,
      last_romaji, 0)

/-- Fuel-driven loop of `to_romaji`; a still-pending small tsu is flushed
as a trailing apostrophe when the input is exhausted. -/
def to_romaji_go : Nat → Bool → List Char → List Char → List Char
  | _, tsu, _, [] => if tsu then [SMALL_TSU_REPR] else []
  | 0, tsu, _, _ :: _ => if tsu then [SMALL_TSU_REPR] else []
  | fuel + 1, tsu, last, next :: rest =>
    let p := to_romaji_step tsu last next rest
    p.1 ++ to_romaji_go fuel p.2.1 p.2.2.1 (rest.drop p.2.2.2)

/-- The `to_romaji` scan started in an arbitrary state. -/
def to_romaji_aux (tsu : Bool) (last : List Char) (s : List Char) : List Char :=
  to_romaji_go s.length tsu last s

/-- Converts any kana in the input to romaji; `to_romaji`. -/
def to_romaji (input : List Char) : List Char :=
  to_romaji_aux false [] input

/-! ## Character kinds (`kind.rs`) -/

/-- Enumeration with character kinds; `CharKind`. -/
inductive CharKind where
  | None
  | Hiragana
  | Katakana
  | KatakanaHalfWidth
  | Kanji
  | BarLine
  | JapanesePunctuation
  | JapaneseMark
  | JapaneseSymbol
  | RomanDigit
  | RomanLetter
  | RomanPunctuation
  | PunctuationASCII
  | Romaji
deriving DecidableEq, Repr

/-- Kind resolver; `get_kind`.  The Rust source is a single `match` whose
arms are tried top to bottom; the chain of conditionals below lists the
same arms in the same order, so the first-match priority is preserved.
The ASCII punctuation arm is written with codepoints (it contains the
backtick, quote and brace characters). -/
def get_kind (chr : Char) : CharKind :=
  let n := chr.toNat
  -- Latin range
  if (0x41 ≤ n && n ≤ 0x5A) || (0x61 ≤ n && n ≤ 0x7A) then .Romaji
  else if chr = 'â' || chr = 'ê' || chr = 'î' || chr = 'ô' || chr = 'û' then .Romaji
  else if chr = 'Â' || chr = 'Ê' || chr = 'Î' || chr = 'Ô' || chr = 'Û' then .Romaji
  else if chr = 'ā' || chr = 'ē' || chr = 'ī' || chr = 'ō' || chr = 'ū' then .Romaji
  else if chr = 'Ā' || chr = 'Ē' || chr = 'Ī' || chr = 'Ō' || chr = 'Ū' then .Romaji
  else if 0x30 ≤ n && n ≤ 0x39 then .Romaji
  else if n = 0x20 || n = 0x60 || n = 0x7E || n = 0x21 || n = 0x40 || n = 0x23
      || n = 0x24 || n = 0x25 || n = 0x5E || n = 0x26 || n = 0x2A || n = 0x28
      || n = 0x29 || n = 0x2D || n = 0x5F || n = 0x3D || n = 0x2B || n = 0x5B
      || n = 0x5D || n = 0x7B || n = 0x7D || n = 0x3B || n = 0x3A || n = 0x3C
      || n = 0x3E || n = 0x2C || n = 0x2E || n = 0x2F || n = 0x3F || n = 0x27
      || n = 0x22 || n = 0x7C || n = 0x5C then .PunctuationASCII
  -- Kana specials
  else if chr = 'ー' || chr = 'ｰ' then .BarLine
  else if chr = 'ゟ' then .Hiragana
  else if chr = 'ヿ' then .Katakana
  -- Roman full and halfwidth
  else if 0xFF10 ≤ n && n ≤ 0xFF19 then .RomanDigit
  else if 0xFF21 ≤ n && n ≤ 0xFF3A then .RomanLetter
  else if 0xFF41 ≤ n && n ≤ 0xFF5A then .RomanLetter
  else if 0xFF01 ≤ n && n ≤ 0xFF0F then .RomanPunctuation
  else if 0xFF1A ≤ n && n ≤ 0xFF20 then .RomanPunctuation
  else if 0xFF3B ≤ n && n ≤ 0xFF40 then .RomanPunctuation
  else if 0xFF5B ≤ n && n ≤ 0xFF5E then .RomanPunctuation
  -- Japanese punctuation (CJK Symbols and Punctuation)
  else if chr = '　' || chr = '、' || chr = '。' || chr = '〃' || chr = '〈'
      || chr = '〉' || chr = '《' || chr = '》' || chr = '「' || chr = '」'
      || chr = '『' || chr = '』' || chr = '【' || chr = '】' || chr = '〔'
      || chr = '〕' || chr = '〖' || chr = '〗' || chr = '〘' || chr = '〙'
      || chr = '〚' || chr = '〛' || chr = '〜' || chr = '〝' || chr = '〞'
      || chr = '〟' || chr = '〰' || chr = '〽' then .JapanesePunctuation
  else if chr = '々' || chr = '〆' || chr = '〱' || chr = '〲' || chr = '〳'
      || chr = '〴' || chr = '〵' || chr = '〻' || chr = '〼' || chr = '゛'
      || chr = '゜' || chr = 'ゝ' || chr = 'ゞ' then .JapaneseMark
  else if chr = '〄' || chr = '〇' || chr = '〒' || chr = '〓' || chr = '〠'
      || chr = '〶' || chr = '〷' || chr = '〾' || chr = '〿' then .JapaneseSymbol
  -- Full and half-width punctuation (includes Kana)
  else if 0xFF5F ≤ n && n ≤ 0xFF65 then .JapanesePunctuation
  -- Katakana
  else if chr = '゠' || chr = '・' then .JapanesePunctuation
  else if chr = 'ヽ' || chr = 'ヾ' then .JapaneseMark
  -- Full and halfwidth symbols
  else if 0xFFE0 ≤ n && n ≤ 0xFFEE then .JapaneseSymbol
  -- Misc symbols
  else if 0x3200 ≤ n && n ≤ 0x32FE then .JapaneseSymbol
  else if 0x3300 ≤ n && n ≤ 0x33FF then .JapaneseSymbol
  else if 0x2E80 ≤ n && n ≤ 0x2EF3 then .JapaneseSymbol
  else if 0x2F00 ≤ n && n ≤ 0x2FD5 then .JapaneseSymbol
  -- Numeric ranges
  else if HIRAGANA_START ≤ n && n ≤ HIRAGANA_END then .Hiragana
  else if KATAKANA_START ≤ n && n ≤ KATAKANA_END then .Katakana
  else if SMALL_KATAKANA_START ≤ n && n ≤ SMALL_KATAKANA_END then .Katakana
  else if HALF_KATAKANA_START ≤ n && n ≤ HALF_KATAKANA_END then .KatakanaHalfWidth
  else if KANJI_START ≤ n && n ≤ KANJI_END then .Kanji
  else if KANJI_START_A ≤ n && n ≤ KANJI_END_A then .Kanji
  else if KANJI_START_B ≤ n && n ≤ KANJI_END_B then .Kanji
  else if KANJI_START_C ≤ n && n ≤ KANJI_END_C then .Kanji
  else if KANJI_START_D ≤ n && n ≤ KANJI_END_D then .Kanji
  else .None

end Kana

namespace Kana

/-! ## Codepoint bridging lemmas -/

theorem char_toNat_ofNat {n : Nat} (h : n.isValidChar) : (Char.ofNat n).toNat = n := by
  unfold Char.ofNat
  rw [dif_pos h]
  rfl

theorem char_eq_of_toNat_eq {c d : Char} (h : c.toNat = d.toNat) : c = d :=
  Char.eq_of_val_eq (by
    have h1 : c.val.toBitVec.toNat = d.val.toBitVec.toNat := h
    exact UInt32.eq_of_toBitVec_eq (BitVec.eq_of_toNat_eq h1))

theorem char_eq_iff_toNat {c d : Char} : c = d ↔ c.toNat = d.toNat :=
  ⟨fun h => h ▸ rfl, char_eq_of_toNat_eq⟩

theorem char_valid_toNat (c : Char) : Nat.isValidChar c.toNat := by
  rcases c.valid with h | ⟨h1, h2⟩
  · exact Or.inl h
  · exact Or.inr ⟨h1, h2⟩

theorem char_ofNat_toNat (c : Char) : Char.ofNat c.toNat = c := by
  apply char_eq_of_toNat_eq
  rw [char_toNat_ofNat (char_valid_toNat c)]

theorem char_in_range_iff {c : Char} {a b : Nat} :
    char_in_range c a b = true ↔ a ≤ c.toNat ∧ c.toNat ≤ b := by
  simp [char_in_range]

/-! ## Codepoint views of the character maps -/

/-- Codepoint view of `hiragana_to_katakana`. -/
def h2k_code (n : Nat) : Nat :=
  if 0x3041 ≤ n ∧ n ≤ 0x3096 then n + 0x60
  else if n = 0x309D then 0x30FD
  else if n = 0x309E then 0x30FE
  else n

theorem upper_code_spec (n : Nat) :
    (0x61 ≤ n ∧ n ≤ 0x7A ∧ upper_code n = n - 0x20)
    ∨ (n = 0xE2 ∧ upper_code n = 0xC2)
    ∨ (n = 0xEA ∧ upper_code n = 0xCA)
    ∨ (n = 0xEE ∧ upper_code n = 0xCE)
    ∨ (n = 0xF4 ∧ upper_code n = 0xD4)
    ∨ (n = 0xFB ∧ upper_code n = 0xDB)
    ∨ (n = 0x101 ∧ upper_code n = 0x100)
    ∨ (n = 0x113 ∧ upper_code n = 0x112)
    ∨ (n = 0x12B ∧ upper_code n = 0x12A)
    ∨ (n = 0x14D ∧ upper_code n = 0x14C)
    ∨ (n = 0x16B ∧ upper_code n = 0x16A)
    ∨ (¬(0x61 ≤ n ∧ n ≤ 0x7A) ∧ n ≠ 0xE2 ∧ n ≠ 0xEA ∧ n ≠ 0xEE ∧ n ≠ 0xF4
        ∧ n ≠ 0xFB ∧ n ≠ 0x101 ∧ n ≠ 0x113 ∧ n ≠ 0x12B ∧ n ≠ 0x14D ∧ n ≠ 0x16B
        ∧ upper_code n = n) := by
  unfold upper_code
  by_cases h1 : 0x61 ≤ n ∧ n ≤ 0x7A
  · rw [if_pos h1]; exact Or.inl ⟨h1.1, h1.2, rfl⟩
  rw [if_neg h1]
  by_cases h2 : n = 0xE2
  · rw [if_pos h2]; exact Or.inr (Or.inl ⟨h2, rfl⟩)
  rw [if_neg h2]
  by_cases h3 : n = 0xEA
  · rw [if_pos h3]; exact Or.inr (Or.inr (Or.inl ⟨h3, rfl⟩))
  rw [if_neg h3]
  by_cases h4 : n = 0xEE
  · rw [if_pos h4]; exact Or.inr (Or.inr (Or.inr (Or.inl ⟨h4, rfl⟩)))
  rw [if_neg h4]
  by_cases h5 : n = 0xF4
  · rw [if_pos h5]; exact Or.inr (Or.inr (Or.inr (Or.inr (Or.inl ⟨h5, rfl⟩))))
  rw [if_neg h5]
  by_cases h6 : n = 0xFB
  · rw [if_pos h6]
    exact Or.inr (Or.inr (Or.inr (Or.inr (Or.inr (Or.inl ⟨h6, rfl⟩)))))
  rw [if_neg h6]
  by_cases h7 : n = 0x101
  · rw [if_pos h7]
    exact Or.inr (Or.inr (Or.inr (Or.inr (Or.inr (Or.inr (Or.inl ⟨h7, rfl⟩))))))
  rw [if_neg h7]
  by_cases h8 : n = 0x113
  · rw [if_pos h8]
    exact Or.inr (Or.inr (Or.inr (Or.inr (Or.inr (Or.inr (Or.inr
      (Or.inl ⟨h8, rfl⟩)))))))
  rw [if_neg h8]
  by_cases h9 : n = 0x12B
  · rw [if_pos h9]
    exact Or.inr (Or.inr (Or.inr (Or.inr (Or.inr (Or.inr (Or.inr (Or.inr
      (Or.inl ⟨h9, rfl⟩))))))))
  rw [if_neg h9]
  by_cases h10 : n = 0x14D
  · rw [if_pos h10]
    exact Or.inr (Or.inr (Or.inr (Or.inr (Or.inr (Or.inr (Or.inr (Or.inr (Or.inr
      (Or.inl ⟨h10, rfl⟩)))))))))
  rw [if_neg h10]
  by_cases h11 : n = 0x16B
  · rw [if_pos h11]
    exact Or.inr (Or.inr (Or.inr (Or.inr (Or.inr (Or.inr (Or.inr (Or.inr (Or.inr
      (Or.inr (Or.inl ⟨h11, rfl⟩))))))))))
  rw [if_neg h11]
  exact Or.inr (Or.inr (Or.inr (Or.inr (Or.inr (Or.inr (Or.inr (Or.inr (Or.inr
    (Or.inr (Or.inr ⟨h1, h2, h3, h4, h5, h6, h7, h8, h9, h10, h11, rfl⟩))))))))))

theorem lower_code_spec (n : Nat) :
    (0x41 ≤ n ∧ n ≤ 0x5A ∧ lower_code n = n + 0x20)
    ∨ (n = 0xC2 ∧ lower_code n = 0xE2)
    ∨ (n = 0xCA ∧ lower_code n = 0xEA)
    ∨ (n = 0xCE ∧ lower_code n = 0xEE)
    ∨ (n = 0xD4 ∧ lower_code n = 0xF4)
    ∨ (n = 0xDB ∧ lower_code n = 0xFB)
    ∨ (n = 0x100 ∧ lower_code n = 0x101)
    ∨ (n = 0x112 ∧ lower_code n = 0x113)
    ∨ (n = 0x12A ∧ lower_code n = 0x12B)
    ∨ (n = 0x14C ∧ lower_code n = 0x14D)
    ∨ (n = 0x16A ∧ lower_code n = 0x16B)
    ∨ (¬(0x41 ≤ n ∧ n ≤ 0x5A) ∧ n ≠ 0xC2 ∧ n ≠ 0xCA ∧ n ≠ 0xCE ∧ n ≠ 0xD4
        ∧ n ≠ 0xDB ∧ n ≠ 0x100 ∧ n ≠ 0x112 ∧ n ≠ 0x12A ∧ n ≠ 0x14C ∧ n ≠ 0x16A
        ∧ lower_code n = n) := by
  unfold lower_code
  by_cases h1 : 0x41 ≤ n ∧ n ≤ 0x5A
  · rw [if_pos h1]; exact Or.inl ⟨h1.1, h1.2, rfl⟩
  rw [if_neg h1]
  by_cases h2 : n = 0xC2
  · rw [if_pos h2]; exact Or.inr (Or.inl ⟨h2, rfl⟩)
  rw [if_neg h2]
  by_cases h3 : n = 0xCA
  · rw [if_pos h3]; exact Or.inr (Or.inr (Or.inl ⟨h3, rfl⟩))
  rw [if_neg h3]
  by_cases h4 : n = 0xCE
  · rw [if_pos h4]; exact Or.inr (Or.inr (Or.inr (Or.inl ⟨h4, rfl⟩)))
  rw [if_neg h4]
  by_cases h5 : n = 0xD4
  · rw [if_pos h5]; exact Or.inr (Or.inr (Or.inr (Or.inr (Or.inl ⟨h5, rfl⟩))))
  rw [if_neg h5]
  by_cases h6 : n = 0xDB
  · rw [if_pos h6]
    exact Or.inr (Or.inr (Or.inr (Or.inr (Or.inr (Or.inl ⟨h6, rfl⟩)))))
  rw [if_neg h6]
  by_cases h7 : n = 0x100
  · rw [if_pos h7]
    exact Or.inr (Or.inr (Or.inr (Or.inr (Or.inr (Or.inr (Or.inl ⟨h7, rfl⟩))))))
  rw [if_neg h7]
  by_cases h8 : n = 0x112
  · rw [if_pos h8]
    exact Or.inr (Or.inr (Or.inr (Or.inr (Or.inr (Or.inr (Or.inr
      (Or.inl ⟨h8, rfl⟩)))))))
  rw [if_neg h8]
  by_cases h9 : n = 0x12A
  · rw [if_pos h9]
    exact Or.inr (Or.inr (Or.inr (Or.inr (Or.inr (Or.inr (Or.inr (Or.inr
      (Or.inl ⟨h9, rfl⟩))))))))
  rw [if_neg h9]
  by_cases h10 : n = 0x14C
  · rw [if_pos h10]
    exact Or.inr (Or.inr (Or.inr (Or.inr (Or.inr (Or.inr (Or.inr (Or.inr (Or.inr
      (Or.inl ⟨h10, rfl⟩)))))))))
  rw [if_neg h10]
  by_cases h11 : n = 0x16A
  · rw [if_pos h11]
    exact Or.inr (Or.inr (Or.inr (Or.inr (Or.inr (Or.inr (Or.inr (Or.inr (Or.inr
      (Or.inr (Or.inl ⟨h11, rfl⟩))))))))))
  rw [if_neg h11]
  exact Or.inr (Or.inr (Or.inr (Or.inr (Or.inr (Or.inr (Or.inr (Or.inr (Or.inr
    (Or.inr (Or.inr ⟨h1, h2, h3, h4, h5, h6, h7, h8, h9, h10, h11, rfl⟩))))))))))

theorem h2k_code_spec (n : Nat) :
    (0x3041 ≤ n ∧ n ≤ 0x3096 ∧ h2k_code n = n + 0x60)
    ∨ (n = 0x309D ∧ h2k_code n = 0x30FD)
    ∨ (n = 0x309E ∧ h2k_code n = 0x30FE)
    ∨ (¬(0x3041 ≤ n ∧ n ≤ 0x3096) ∧ n ≠ 0x309D ∧ n ≠ 0x309E ∧ h2k_code n = n) := by
  unfold h2k_code
  by_cases h1 : 0x3041 ≤ n ∧ n ≤ 0x3096
  · rw [if_pos h1]; exact Or.inl ⟨h1.1, h1.2, rfl⟩
  rw [if_neg h1]
  by_cases h2 : n = 0x309D
  · rw [if_pos h2]; exact Or.inr (Or.inl ⟨h2, rfl⟩)
  rw [if_neg h2]
  by_cases h3 : n = 0x309E
  · rw [if_pos h3]; exact Or.inr (Or.inr (Or.inl ⟨h3, rfl⟩))
  rw [if_neg h3]
  exact Or.inr (Or.inr (Or.inr ⟨h1, h2, h3, rfl⟩))

theorem upper_code_valid {n : Nat} (h : n.isValidChar) :
    (upper_code n).isValidChar := by
  have h1 : n < 0xd800 ∨ (0xdfff < n ∧ n < 0x110000) := h
  show upper_code n < 0xd800 ∨ (0xdfff < upper_code n ∧ upper_code n < 0x110000)
  have s := upper_code_spec n
  omega

theorem lower_code_valid {n : Nat} (h : n.isValidChar) :
    (lower_code n).isValidChar := by
  have h1 : n < 0xd800 ∨ (0xdfff < n ∧ n < 0x110000) := h
  show lower_code n < 0xd800 ∨ (0xdfff < lower_code n ∧ lower_code n < 0x110000)
  have s := lower_code_spec n
  omega

theorem toNat_rust_to_upper (c : Char) :
    (rust_to_upper c).toNat = upper_code c.toNat :=
  char_toNat_ofNat (upper_code_valid (char_valid_toNat c))

theorem toNat_rust_to_lower (c : Char) :
    (rust_to_lower c).toNat = lower_code c.toNat :=
  char_toNat_ofNat (lower_code_valid (char_valid_toNat c))

theorem toNat_hiragana_to_katakana (c : Char) :
    (hiragana_to_katakana c).toNat = h2k_code c.toNat := by
  unfold hiragana_to_katakana h2k_code
  have hr_iff :
      char_in_range c (KATAKANA_START - KATAKANA_TO_HIRAGANA_OFFSET_SUB)
          (KATAKANA_TO_HIRAGANA_END - KATAKANA_TO_HIRAGANA_OFFSET_SUB) = true
        ↔ 0x3041 ≤ c.toNat ∧ c.toNat ≤ 0x3096 := char_in_range_iff
  by_cases hr : 0x3041 ≤ c.toNat ∧ c.toNat ≤ 0x3096
  · rw [if_pos (hr_iff.mpr hr), if_pos hr]
    have hoff : KATAKANA_TO_HIRAGANA_OFFSET_SUB = 0x60 := rfl
    exact char_toNat_ofNat (Or.inl (by omega))
  · rw [if_neg (fun h => hr (hr_iff.mp h)), if_neg hr]
    by_cases h1 : c = 'ゝ'
    · subst h1
      decide
    · have h1' : ¬(c.toNat = 0x309D) := fun h => h1 (char_eq_of_toNat_eq h)
      rw [if_neg h1, if_neg h1']
      by_cases h2 : c = 'ゞ'
      · subst h2
        decide
      · have h2' : ¬(c.toNat = 0x309E) := fun h => h2 (char_eq_of_toNat_eq h)
        rw [if_neg h2, if_neg h2']

/-! ## Scanner unfolding lemmas

The fuel argument of the scanning loops is irrelevant as long as it is at
least the length of the remaining input, which yields the usual one-step
unfolding equations. -/

theorem to_hiragana_go_irrel :
    ∀ (f g : Nat) (s : List Char), s.length ≤ f → s.length ≤ g →
      to_hiragana_go f s = to_hiragana_go g s := by
  intro f
  induction f with
  | zero =>
    intro g s hf _
    have : s = [] := List.eq_nil_of_length_eq_zero (Nat.le_zero.mp hf)
    subst this
    cases g <;> rfl
  | succ f ih =>
    intro g s hf hg
    cases s with
    | nil => cases g <;> rfl
    | cons next rest =>
      cases g with
      | zero => exact absurd hg (by simp)
      | succ g =>
        show (to_hiragana_step next rest).1
            ++ to_hiragana_go f (rest.drop (to_hiragana_step next rest).2)
          = (to_hiragana_step next rest).1
            ++ to_hiragana_go g (rest.drop (to_hiragana_step next rest).2)
        have hlen : (rest.drop (to_hiragana_step next rest).2).length ≤ rest.length := by
          rw [List.length_drop]
          omega
        have hf1 : rest.length ≤ f := by simpa using hf
        have hg1 : rest.length ≤ g := by simpa using hg
        rw [ih g _ (Nat.le_trans hlen hf1) (Nat.le_trans hlen hg1)]

theorem to_hiragana_nil : to_hiragana [] = [] := rfl

theorem to_hiragana_cons (next : Char) (rest : List Char) :
    to_hiragana (next :: rest)
      = (to_hiragana_step next rest).1
        ++ to_hiragana (rest.drop (to_hiragana_step next rest).2) := by
  show to_hiragana_go (rest.length + 1) (next :: rest) = _
  show (to_hiragana_step next rest).1
      ++ to_hiragana_go rest.length (rest.drop (to_hiragana_step next rest).2) = _
  congr 1
  apply to_hiragana_go_irrel
  · rw [List.length_drop]; omega
  · exact Nat.le_refl _

theorem to_romaji_go_irrel :
    ∀ (f g : Nat) (tsu : Bool) (last s : List Char), s.length ≤ f → s.length ≤ g →
      to_romaji_go f tsu last s = to_romaji_go g tsu last s := by
  intro f
  induction f with
  | zero =>
    intro g tsu last s hf _
    have : s = [] := List.eq_nil_of_length_eq_zero (Nat.le_zero.mp hf)
    subst this
    cases g <;> rfl
  | succ f ih =>
    intro g tsu last s hf hg
    cases s with
    | nil => cases g <;> rfl
    | cons next rest =>
      cases g with
      | zero => exact absurd hg (by simp)
      | succ g =>
        show (to_romaji_step tsu last next rest).1
            ++ to_romaji_go f _ _ (rest.drop (to_romaji_step tsu last next rest).2.2.2)
          = (to_romaji_step tsu last next rest).1
            ++ to_romaji_go g _ _ (rest.drop (to_romaji_step tsu last next rest).2.2.2)
        have hlen : (rest.drop (to_romaji_step tsu last next rest).2.2.2).length
            ≤ rest.length := by
          rw [List.length_drop]
          omega
        have hf1 : rest.length ≤ f := by simpa using hf
        have hg1 : rest.length ≤ g := by simpa using hg
        rw [ih g _ _ _ (Nat.le_trans hlen hf1) (Nat.le_trans hlen hg1)]

theorem to_romaji_aux_nil (tsu : Bool) (last : List Char) :
    to_romaji_aux tsu last [] = if tsu then [SMALL_TSU_REPR] else [] := rfl

theorem to_romaji_aux_cons (tsu : Bool) (last : List Char) (next : Char)
    (rest : List Char) :
    to_romaji_aux tsu last (next :: rest)
      = (to_romaji_step tsu last next rest).1
        ++ to_romaji_aux (to_romaji_step tsu last next rest).2.1
            (to_romaji_step tsu last next rest).2.2.1
            (rest.drop (to_romaji_step tsu last next rest).2.2.2) := by
  show to_romaji_go (rest.length + 1) tsu last (next :: rest) = _
  show (to_romaji_step tsu last next rest).1
      ++ to_romaji_go rest.length _ _ (rest.drop (to_romaji_step tsu last next rest).2.2.2)
    = _
  congr 1
  apply to_romaji_go_irrel
  · rw [List.length_drop]; omega
  · exact Nat.le_refl _

/-! ## Longest-match lookup lemmas -/

theorem find_chunk_some {m : List (List Char × List Char)} {src : List Char}
    {p : List Char × List Char} :
    ∀ {n : Nat}, find_chunk m src n = some p →
      ∃ l, 1 ≤ l ∧ l ≤ n ∧ p.1 = src.take l ∧ lookup_table m p.1 = some p.2 := by
  intro n
  induction n with
  | zero => intro h; simp [find_chunk] at h
  | succ n ih =>
    intro h
    unfold find_chunk at h
    rcases hl : lookup_table m (src.take (n + 1)) with _ | v
    · rw [hl] at h
      obtain ⟨l, h1, h2, h3, h4⟩ := ih h
      exact ⟨l, h1, Nat.le_succ_of_le h2, h3, h4⟩
    · rw [hl] at h
      obtain rfl : (src.take (n + 1), v) = p := by simpa using h
      exact ⟨n + 1, by omega, Nat.le_refl _, rfl, hl⟩

theorem lookup_table_mem {m : List (List Char × List Char)} {k v : List Char} :
    lookup_table m k = some v → (k, v) ∈ m := by
  induction m with
  | nil => intro h; simp [lookup_table] at h
  | cons p rest ih =>
    intro h
    unfold lookup_table at h
    by_cases he : k = p.1
    · subst he
      rw [if_pos rfl] at h
      obtain rfl : p.2 = v := by simpa using h
      exact List.mem_cons_self _ _
    · rw [if_neg he] at h
      exact List.mem_cons_of_mem _ (ih h)

/-! ## Claim C1 -/

theorem chunk_length_le {m : List (List Char × List Char)} {next : Char}
    {rest chunk kana : List Char} {mx : Nat}
    (hfc : find_chunk m (next :: rest) mx = some (chunk, kana)) :
    chunk.length - 1 ≤ rest.length := by
  obtain ⟨l, _, _, h3, _⟩ := find_chunk_some hfc
  have h4 := congrArg List.length h3
  rw [List.length_take] at h4
  simp only [List.length_cons] at h4
  omega

theorem to_hiragana_step_le (next : Char) (rest : List Char) :
    (to_hiragana_step next rest).2 ≤ rest.length := by
  unfold to_hiragana_step
  by_cases h1 : char_in_range next KATAKANA_START KATAKANA_TO_HIRAGANA_END = true
  · rw [if_pos h1]; exact Nat.zero_le _
  rw [if_neg h1]
  by_cases h2 : char_in_range next HIRAGANA_START HIRAGANA_END = true
  · rw [if_pos h2]; exact Nat.zero_le _
  rw [if_neg h2]
  by_cases h3 : next ≠ 'n' ∧ next ≠ 'N' ∧ is_consonant next true = true
      ∧ rest.head? = some next
  · rw [if_pos h3]; exact Nat.zero_le _
  rw [if_neg h3]
  dsimp only
  rcases hfc : find_chunk TO_HIRAGANA (next :: rest)
      (if next = ':' ∨ 0x61 ≤ next.toNat ∧ next.toNat ≤ 0x7A
          ∨ 0x41 ≤ next.toNat ∧ next.toNat ≤ 0x5A then
        TO_HIRAGANA_MAX_CHUNK else 1) with _ | ⟨chunk, kana⟩
  · exact Nat.zero_le _
  · exact chunk_length_le hfc

theorem to_romaji_step_le (tsu : Bool) (last : List Char) (next : Char)
    (rest : List Char) :
    (to_romaji_step tsu last next rest).2.2.2 ≤ rest.length := by
  unfold to_romaji_step
  by_cases h1 : next = 'っ' ∨ next = 'ッ'
  · rw [if_pos h1]; exact Nat.zero_le _
  rw [if_neg h1]
  by_cases h2 : next = 'ヽ' ∨ next = 'ゝ' ∨ next = 'ヾ' ∨ next = 'ゞ'
  · rw [if_pos h2]
    dsimp only
    split_ifs <;> exact Nat.zero_le _
  rw [if_neg h2]
  by_cases h3 : TO_ROMAJI_CHARS.contains next = true
  · rw [if_pos h3]
    rcases hfc : find_chunk TO_ROMAJI (next :: rest) TO_ROMAJI_MAX_CHUNK
      with _ | ⟨chunk, romaji⟩
    · exact Nat.zero_le _
    · exact chunk_length_le hfc
  · rw [if_neg h3]; exact Nat.zero_le _

/-- C1: the three conversion functions are total.  Totality is expressed
through the embedding: the scan loops are modelled by total functions
whose per-iteration character consumption never exceeds the remaining
input (so the byte-offset slicing of the source always lands inside the
string, at the boundary of the consumed characters), and the two pieces
of unchecked codepoint arithmetic stay inside valid Unicode scalar
values under their branch guards: the Katakana-to-Hiragana offset
subtraction of `to_hiragana` and the Hiragana-to-Katakana offset
addition of `hiragana_to_katakana` (used by `to_katakana`). -/
theorem c1_totality_and_scalar_safety :
    (∀ c : Char, char_in_range c KATAKANA_START KATAKANA_TO_HIRAGANA_END = true →
      Nat.isValidChar (c.toNat - KATAKANA_TO_HIRAGANA_OFFSET_SUB))
    ∧ (∀ c : Char,
        char_in_range c (KATAKANA_START - KATAKANA_TO_HIRAGANA_OFFSET_SUB)
          (KATAKANA_TO_HIRAGANA_END - KATAKANA_TO_HIRAGANA_OFFSET_SUB) = true →
        Nat.isValidChar (c.toNat + KATAKANA_TO_HIRAGANA_OFFSET_SUB))
    ∧ (∀ (next : Char) (rest : List Char),
        (to_hiragana_step next rest).2 ≤ rest.length)
    ∧ (∀ (tsu : Bool) (last : List Char) (next : Char) (rest : List Char),
        (to_romaji_step tsu last next rest).2.2.2 ≤ rest.length) := by
  refine ⟨?_, ?_, to_hiragana_step_le, to_romaji_step_le⟩
  · intro c hc
    have h : 0x30A1 ≤ c.toNat ∧ c.toNat ≤ 0x30F6 := char_in_range_iff.mp hc
    show c.toNat - 0x60 < 0xd800
      ∨ (0xdfff < c.toNat - 0x60 ∧ c.toNat - 0x60 < 0x110000)
    omega
  · intro c hc
    have h : 0x3041 ≤ c.toNat ∧ c.toNat ≤ 0x3096 := char_in_range_iff.mp hc
    show c.toNat + 0x60 < 0xd800
      ∨ (0xdfff < c.toNat + 0x60 ∧ c.toNat + 0x60 < 0x110000)
    omega

/-- C1 witness: the theorem applied at concrete inputs with the guards
discharged by evaluation. -/
theorem c1_witness :
    Nat.isValidChar ('ア'.toNat - KATAKANA_TO_HIRAGANA_OFFSET_SUB)
    ∧ Nat.isValidChar ('あ'.toNat + KATAKANA_TO_HIRAGANA_OFFSET_SUB)
    ∧ (to_hiragana_step 'k' "ka".data).2 ≤ ("ka".data).length
    ∧ (to_romaji_step true "ka".data 'か' "っか".data).2.2.2 ≤ ("っか".data).length :=
  ⟨c1_totality_and_scalar_safety.1 'ア' (by decide),
   c1_totality_and_scalar_safety.2.1 'あ' (by decide),
   c1_totality_and_scalar_safety.2.2.1 'k' "ka".data,
   c1_totality_and_scalar_safety.2.2.2 true "ka".data 'か' "っか".data⟩

/-! ## Claim C2 -/

/-- Spec-side description of the per-character Hiragana to Katakana
shift: add the fixed block offset 0x60 for characters in the shiftable
Hiragana sub-range U+3041..U+3096, remap the two Hiragana iteration
marks to their Katakana forms, and pass every other character through. -/
def hiragana_to_katakana_spec (c : Char) : Char :=
  if 0x3041 ≤ c.toNat ∧ c.toNat ≤ 0x3096 then Char.ofNat (c.toNat + 0x60)
  else if c = 'ゝ' then 'ヽ'
  else if c = 'ゞ' then 'ヾ'
  else c

/-- C2: `to_katakana` is `to_hiragana` followed by mapping every
character of the intermediate string through the Hiragana-to-Katakana
shift `hiragana_to_katakana`, and that shift agrees with the spec's
description (offset addition on the shiftable sub-range, the two
iteration-mark remaps, pass-through elsewhere). -/
theorem c2_to_katakana_shift :
    (∀ c : Char, hiragana_to_katakana c = hiragana_to_katakana_spec c)
    ∧ (∀ s : List Char, to_katakana s = (to_hiragana s).map hiragana_to_katakana) := by
  constructor
  · intro c
    unfold hiragana_to_katakana hiragana_to_katakana_spec
    have hr_iff :
        char_in_range c (KATAKANA_START - KATAKANA_TO_HIRAGANA_OFFSET_SUB)
            (KATAKANA_TO_HIRAGANA_END - KATAKANA_TO_HIRAGANA_OFFSET_SUB) = true
          ↔ 0x3041 ≤ c.toNat ∧ c.toNat ≤ 0x3096 := char_in_range_iff
    by_cases hr : 0x3041 ≤ c.toNat ∧ c.toNat ≤ 0x3096
    · rw [if_pos (hr_iff.mpr hr), if_pos hr]
      rfl
    · rw [if_neg (fun h => hr (hr_iff.mp h)), if_neg hr]
  · intro s
    rfl

/-! ## Branch lemmas for the scanners -/

theorem take_cons_of_pos {next : Char} {rest : List Char} {l : Nat} (h : 1 ≤ l) :
    (next :: rest).take l = next :: rest.take (l - 1) := by
  rcases l with _ | l
  · omega
  · simp

theorem find_chunk_contains {next : Char} {rest chunk v : List Char} {mx : Nat}
    (hfc : find_chunk TO_ROMAJI (next :: rest) mx = some (chunk, v)) :
    TO_ROMAJI_CHARS.contains next = true := by
  obtain ⟨l, h1, _, h3, h4⟩ := find_chunk_some hfc
  dsimp only at h3 h4
  have hchunk : chunk = next :: rest.take (l - 1) := by
    rw [h3, take_cons_of_pos h1]
  have hmem : (chunk, v) ∈ TO_ROMAJI := lookup_table_mem h4
  have hhead : chunk.head? = some next := by rw [hchunk]; rfl
  have hin : next ∈ TO_ROMAJI_CHARS :=
    List.mem_filterMap.mpr ⟨(chunk, v), hmem, hhead⟩
  exact List.elem_iff.mpr hin

/-- The `to_romaji` iteration on a position where the table matches, with
a pending small tsu resolved into a doubled consonant or an apostrophe. -/
theorem to_romaji_aux_match (tsu : Bool) (last : List Char) (next : Char)
    (rest chunk ds : List Char) (d : Char)
    (h1 : ¬(next = 'っ' ∨ next = 'ッ'))
    (h2 : ¬(next = 'ヽ' ∨ next = 'ゝ' ∨ next = 'ヾ' ∨ next = 'ゞ'))
    (hfc : find_chunk TO_ROMAJI (next :: rest) TO_ROMAJI_MAX_CHUNK
      = some (chunk, d :: ds)) :
    to_romaji_aux tsu last (next :: rest)
      = (if tsu then (if is_consonant d true then [d] else [SMALL_TSU_REPR]) else [])
        ++ (d :: ds)
        ++ to_romaji_aux false (d :: ds) (rest.drop (chunk.length - 1)) := by
  rw [to_romaji_aux_cons]
  have hstep : to_romaji_step tsu last next rest
      = ((if tsu then (if is_consonant d true then [d] else [SMALL_TSU_REPR]) else [])
          ++ (d :: ds), false, d :: ds, chunk.length - 1) := by
    unfold to_romaji_step
    rw [if_neg h1, if_neg h2, if_pos (find_chunk_contains hfc), hfc]
    rfl
  rw [hstep]

/-- The `to_romaji` iteration on a position that nothing matches: flush
any pending small tsu and pass the character through; the last-romaji
state is unchanged. -/
theorem to_romaji_aux_pass (tsu : Bool) (last : List Char) (next : Char)
    (rest : List Char)
    (h1 : ¬(next = 'っ' ∨ next = 'ッ'))
    (h2 : ¬(next = 'ヽ' ∨ next = 'ゝ' ∨ next = 'ヾ' ∨ next = 'ゞ'))
    (h3 : TO_ROMAJI_CHARS.contains next = false) :
    to_romaji_aux tsu last (next :: rest)
      = (if tsu then [SMALL_TSU_REPR] else [])
        ++ next :: to_romaji_aux false last rest := by
  rw [to_romaji_aux_cons]
  have hstep : to_romaji_step tsu last next rest
      = ((if tsu then [SMALL_TSU_REPR] else []) ++ [next], false, last, 0) := by
    unfold to_romaji_step
    rw [if_neg h1, if_neg h2, if_neg (show ¬(TO_ROMAJI_CHARS.contains next = true) by
      rw [h3]; decide)]
  rw [hstep]
  simp

/-- The `to_hiragana` iteration on a directly-shiftable Katakana
character: offset the codepoint down and emit the Hiragana character. -/
theorem to_hiragana_katakana_cons (next : Char) (rest : List Char)
    (h : char_in_range next KATAKANA_START KATAKANA_TO_HIRAGANA_END = true) :
    to_hiragana (next :: rest)
      = Char.ofNat (next.toNat - KATAKANA_TO_HIRAGANA_OFFSET_SUB)
        :: to_hiragana rest := by
  rw [to_hiragana_cons]
  have hstep : to_hiragana_step next rest
      = ([Char.ofNat (next.toNat - KATAKANA_TO_HIRAGANA_OFFSET_SUB)], 0) := by
    unfold to_hiragana_step
    rw [if_pos h]
  rw [hstep]
  simp

/-- The `to_hiragana` iteration on a Hiragana character: pass-through. -/
theorem to_hiragana_hira_cons (next : Char) (rest : List Char)
    (h : char_in_range next HIRAGANA_START HIRAGANA_END = true) :
    to_hiragana (next :: rest) = next :: to_hiragana rest := by
  rw [to_hiragana_cons]
  have hk : ¬(char_in_range next KATAKANA_START KATAKANA_TO_HIRAGANA_END = true) := by
    have h1 : 0x3041 ≤ next.toNat ∧ next.toNat ≤ 0x3096 := char_in_range_iff.mp h
    intro hc
    have h2 : 0x30A1 ≤ next.toNat ∧ next.toNat ≤ 0x30F6 := char_in_range_iff.mp hc
    omega
  have hstep : to_hiragana_step next rest = ([next], 0) := by
    unfold to_hiragana_step
    rw [if_neg hk, if_pos h]
  rw [hstep]
  simp

/-- The `to_hiragana` iteration on a position that nothing matches:
pass the character through. -/
theorem to_hiragana_pass (next : Char) (rest : List Char)
    (h1 : ¬(char_in_range next KATAKANA_START KATAKANA_TO_HIRAGANA_END = true))
    (h2 : ¬(char_in_range next HIRAGANA_START HIRAGANA_END = true))
    (h3 : ¬(next ≠ 'n' ∧ next ≠ 'N' ∧ is_consonant next true = true
      ∧ rest.head? = some next))
    (h4 : find_chunk TO_HIRAGANA (next :: rest)
      (if next = ':' ∨ 0x61 ≤ next.toNat ∧ next.toNat ≤ 0x7A
          ∨ 0x41 ≤ next.toNat ∧ next.toNat ≤ 0x5A then
        TO_HIRAGANA_MAX_CHUNK else 1) = none) :
    to_hiragana (next :: rest) = next :: to_hiragana rest := by
  rw [to_hiragana_cons]
  have hstep : to_hiragana_step next rest = ([next], 0) := by
    unfold to_hiragana_step
    rw [if_neg h1, if_neg h2, if_neg h3]
    dsimp only
    rw [h4]
  rw [hstep]
  simp

/-! ## Claim C5 -/

/-- C5 counterexample: the claim says that when a small tsu is pending
and the matched syllable starts with n, a literal apostrophe is emitted.
In the code `is_consonant('n', true)` is true, so the n is doubled
instead: `to_romaji("っな")` is "nna", not an apostrophe followed by
"na". -/
theorem c5_counterexample_n_doubles :
    to_romaji "っな".data = "nna".data
    ∧ to_romaji "っな".data ≠ SMALL_TSU_REPR :: "na".data := by
  constructor
  · decide
  · decide

/-- C5 amended: whenever a small tsu is pending and the next input
position matches a syllable of the Kana-to-Romaji table, the matched
romaji's first character is doubled and emitted before the matched text
exactly when it satisfies `is_consonant` with y included — which also
covers n, contrary to the claim's wording — and otherwise (the syllable
starts with a vowel or another non-consonant) a literal apostrophe is
emitted for the pending tsu; the pending flag clears in both cases.  In
particular `to_romaji("かっか") = "kakka"`. -/
theorem c5_small_tsu_on_match :
    (∀ (last : List Char) (next : Char) (rest chunk ds : List Char) (d : Char),
      ¬(next = 'っ' ∨ next = 'ッ') →
      ¬(next = 'ヽ' ∨ next = 'ゝ' ∨ next = 'ヾ' ∨ next = 'ゞ') →
      find_chunk TO_ROMAJI (next :: rest) TO_ROMAJI_MAX_CHUNK
        = some (chunk, d :: ds) →
      to_romaji_aux true last (next :: rest)
        = (if is_consonant d true then [d] else [SMALL_TSU_REPR])
          ++ (d :: ds)
          ++ to_romaji_aux false (d :: ds) (rest.drop (chunk.length - 1)))
    ∧ to_romaji "かっか".data = "kakka".data := by
  constructor
  · intro last next rest chunk ds d h1 h2 hfc
    have h := to_romaji_aux_match true last next rest chunk ds d h1 h2 hfc
    simpa using h
  · decide

/-- C5 witness: the amended branch description applied at the concrete
input `か` with a pending small tsu. -/
theorem c5_witness :
    to_romaji_aux true [] ['か']
      = (if is_consonant 'k' true then ['k'] else [SMALL_TSU_REPR])
        ++ ('k' :: ['a'])
        ++ to_romaji_aux false ('k' :: ['a'])
            (([] : List Char).drop ((['か'] : List Char).length - 1)) :=
  c5_small_tsu_on_match.1 [] 'か' [] ['か'] ['a'] 'k'
    (by decide) (by decide) (by decide)

/-! ## Claim C6 -/

/-- C6: iteration marks repeat the last emitted romaji syllable, the
digraph "koto" repeating as "to", and the voiced marks applying the
consonant voicing table: `to_romaji("ヿゝゝ") = "kotototo"` and
`to_romaji("ヿゞゞ") = "kotododo"`. -/
theorem c6_iteration_marks :
    to_romaji "ヿゝゝ".data = "kotototo".data
    ∧ to_romaji "ヿゞゞ".data = "kotododo".data := by
  constructor
  · decide
  · decide

/-! ## Key character analysis of the tables -/

theorem is_kanji_iff {c : Char} : is_kanji c = true ↔
    (0x4E00 ≤ c.toNat ∧ c.toNat ≤ 0x9FAF) ∨ (0x3400 ≤ c.toNat ∧ c.toNat ≤ 0x4DB5)
    ∨ (0x20000 ≤ c.toNat ∧ c.toNat ≤ 0x2A6D6)
    ∨ (0x2A700 ≤ c.toNat ∧ c.toNat ≤ 0x2B734)
    ∨ (0x2B740 ≤ c.toNat ∧ c.toNat ≤ 0x2B81D) := by
  simp only [is_kanji, KANJI_START, KANJI_END, KANJI_START_A, KANJI_END_A,
    KANJI_START_B, KANJI_END_B, KANJI_START_C, KANJI_END_C, KANJI_START_D,
    KANJI_END_D, Bool.or_eq_true, Bool.and_eq_true, decide_eq_true_eq]
  tauto

theorem kanji_free_upper {c : Char} (h : is_kanji c = false) :
    is_kanji (rust_to_upper c) = false := by
  rw [Bool.eq_false_iff]
  intro hk
  rw [is_kanji_iff, toNat_rust_to_upper] at hk
  have h1 : ¬(is_kanji c = true) := by simp [h]
  rw [is_kanji_iff] at h1
  have s := upper_code_spec c.toNat
  omega

theorem kanji_free_h2k {c : Char} (h : is_kanji c = false) :
    is_kanji (hiragana_to_katakana c) = false := by
  rw [Bool.eq_false_iff]
  intro hk
  rw [is_kanji_iff, toNat_hiragana_to_katakana] at hk
  have h1 : ¬(is_kanji c = true) := by simp [h]
  rw [is_kanji_iff] at h1
  have s := h2k_code_spec c.toNat
  omega

theorem gen_keys_list_chars :
    ∀ (lc uc base s : List Char), s ∈ gen_keys_list lc uc base →
      ∀ ch ∈ s, ch ∈ base ∨ ch ∈ lc ∨ ch ∈ uc := by
  intro lc
  induction lc with
  | nil =>
    intro uc base s hs ch hch
    simp only [gen_keys_list, List.mem_singleton] at hs
    subst hs
    exact Or.inl hch
  | cons l ls ih =>
    intro uc base s hs ch hch
    cases uc with
    | nil =>
      simp only [gen_keys_list, List.mem_singleton] at hs
      subst hs
      exact Or.inl hch
    | cons u us =>
      rw [gen_keys_list] at hs
      rcases List.mem_append.mp hs with h | h
      · rcases ih us (base ++ [l]) s h ch hch with hb | hl | hu
        · rcases List.mem_append.mp hb with h1 | h1
          · exact Or.inl h1
          · simp only [List.mem_singleton] at h1
            subst h1
            exact Or.inr (Or.inl (List.mem_cons_self _ _))
        · exact Or.inr (Or.inl (List.mem_cons_of_mem _ hl))
        · exact Or.inr (Or.inr (List.mem_cons_of_mem _ hu))
      · by_cases hlu : l ≠ u
        · rw [if_pos hlu] at h
          rcases ih us (base ++ [u]) s h ch hch with hb | hl | hu
          · rcases List.mem_append.mp hb with h1 | h1
            · exact Or.inl h1
            · simp only [List.mem_singleton] at h1
              subst h1
              exact Or.inr (Or.inr (List.mem_cons_self _ _))
          · exact Or.inr (Or.inl (List.mem_cons_of_mem _ hl))
          · exact Or.inr (Or.inr (List.mem_cons_of_mem _ hu))
        · rw [if_neg hlu] at h
          simp at h

theorem with_kat_spec {k v : List Char} {p : List Char × List Char}
    (h : p ∈ (if k.map hiragana_to_katakana ≠ k then
      (k.map hiragana_to_katakana, v) :: [(k, v)] else [(k, v)])) :
    p.2 = v ∧ (p.1 = k ∨ p.1 = k.map hiragana_to_katakana) := by
  by_cases hk : k.map hiragana_to_katakana ≠ k
  · rw [if_pos hk] at h
    rcases List.mem_cons.mp h with rfl | h
    · exact ⟨rfl, Or.inr rfl⟩
    · simp only [List.mem_singleton] at h
      subst h
      exact ⟨rfl, Or.inl rfl⟩
  · rw [if_neg hk] at h
    simp only [List.mem_singleton] at h
    subst h
    exact ⟨rfl, Or.inl rfl⟩

theorem insert_all_pairs_spec {k v : List Char} {p : List Char × List Char}
    (h : p ∈ insert_all_pairs k v) :
    p.2 = v ∧ (p.1 = k ∨ p.1 = k.map hiragana_to_katakana
      ∨ p.1 = k.map rust_to_upper
      ∨ p.1 ∈ gen_keys_list k (k.map rust_to_upper) []) := by
  unfold insert_all_pairs at h
  dsimp only at h
  by_cases hup : k.map rust_to_upper ≠ k
  · rw [if_pos hup] at h
    by_cases hlen : (k.map rust_to_upper).length = 1
    · rw [if_pos hlen] at h
      rcases List.mem_cons.mp h with rfl | h
      · exact ⟨rfl, Or.inr (Or.inr (Or.inl rfl))⟩
      · obtain ⟨hv, hk⟩ := with_kat_spec h
        exact ⟨hv, hk.imp id fun h1 => Or.inl h1⟩
    · rw [if_neg hlen] at h
      rcases List.mem_append.mp h with h | h
      · obtain ⟨s, hs, hp⟩ := List.mem_map.mp h
        subst hp
        exact ⟨rfl, Or.inr (Or.inr (Or.inr (List.mem_reverse.mp hs)))⟩
      · obtain ⟨hv, hk⟩ := with_kat_spec h
        exact ⟨hv, hk.imp id fun h1 => Or.inl h1⟩
  · rw [if_neg hup] at h
    obtain ⟨hv, hk⟩ := with_kat_spec h
    exact ⟨hv, hk.imp id fun h1 => Or.inl h1⟩

theorem mem_foldl_insert_all {entries : List (List Char × List Char)}
    {p : List Char × List Char} :
    ∀ {acc}, p ∈ entries.foldl (fun m kv => insert_all_pairs kv.1 kv.2 ++ m) acc →
      (∃ kv ∈ entries, p ∈ insert_all_pairs kv.1 kv.2) ∨ p ∈ acc := by
  induction entries with
  | nil =>
    intro acc h
    exact Or.inr h
  | cons kv rest ih =>
    intro acc h
    rw [List.foldl_cons] at h
    rcases ih h with ⟨kv1, hkv1, hp⟩ | hacc
    · exact Or.inl ⟨kv1, List.mem_cons_of_mem _ hkv1, hp⟩
    · rcases List.mem_append.mp hacc with h1 | h1
      · exact Or.inl ⟨kv, List.mem_cons_self _ _, h1⟩
      · exact Or.inr h1

theorem mem_build_table {entries : List (List Char × List Char)}
    {p : List Char × List Char} (h : p ∈ build_table entries) :
    ∃ kv ∈ entries, p ∈ insert_all_pairs kv.1 kv.2 := by
  unfold build_table at h
  rcases mem_foldl_insert_all h with h1 | h1
  · exact h1
  · simp at h1

theorem mem_foldl_cons {α : Type} {l : List α} {p : α} :
    ∀ {acc : List α}, p ∈ l.foldl (fun m kv => kv :: m) acc → p ∈ l ∨ p ∈ acc := by
  induction l with
  | nil =>
    intro acc h
    exact Or.inr h
  | cons kv rest ih =>
    intro acc h
    rw [List.foldl_cons] at h
    rcases ih h with h1 | h1
    · exact Or.inl (List.mem_cons_of_mem _ h1)
    · rcases List.mem_cons.mp h1 with rfl | h2
      · exact Or.inl (List.mem_cons_self _ _)
      · exact Or.inr h2

theorem to_hiragana_base_keys_ok :
    ∀ kv ∈ to_hiragana_base, ∀ ch ∈ kv.1, is_kanji ch = false := by
  decide

theorem to_romaji_base_keys_ok :
    ∀ kv ∈ to_romaji_base, ∀ ch ∈ kv.1, is_kanji ch = false := by
  decide

theorem to_romaji_extra_keys_ok :
    ∀ kv ∈ to_romaji_extra, ∀ ch ∈ kv.1, is_kanji ch = false := by
  decide

theorem table_keys_not_kanji {entries : List (List Char × List Char)}
    (hbase : ∀ kv ∈ entries, ∀ ch ∈ kv.1, is_kanji ch = false) :
    ∀ p ∈ build_table entries, ∀ ch ∈ p.1, is_kanji ch = false := by
  intro p hp ch hch
  obtain ⟨kv, hkv, hpp⟩ := mem_build_table hp
  obtain ⟨_, hkey⟩ := insert_all_pairs_spec hpp
  have hb := hbase kv hkv
  rcases hkey with h | h | h | h
  · exact hb ch (h ▸ hch)
  · rw [h] at hch
    obtain ⟨c0, hc0, hc0e⟩ := List.mem_map.mp hch
    exact hc0e ▸ kanji_free_h2k (hb c0 hc0)
  · rw [h] at hch
    obtain ⟨c0, hc0, hc0e⟩ := List.mem_map.mp hch
    exact hc0e ▸ kanji_free_upper (hb c0 hc0)
  · rcases gen_keys_list_chars kv.1 (kv.1.map rust_to_upper) [] p.1 h ch hch
      with h0 | h0 | h0
    · simp at h0
    · exact hb ch h0
    · obtain ⟨c0, hc0, hc0e⟩ := List.mem_map.mp h0
      exact hc0e ▸ kanji_free_upper (hb c0 hc0)

theorem to_hiragana_keys_not_kanji :
    ∀ p ∈ TO_HIRAGANA, ∀ ch ∈ p.1, is_kanji ch = false :=
  table_keys_not_kanji to_hiragana_base_keys_ok

theorem to_romaji_keys_not_kanji :
    ∀ p ∈ TO_ROMAJI, ∀ ch ∈ p.1, is_kanji ch = false := by
  intro p hp
  unfold TO_ROMAJI at hp
  rcases mem_foldl_cons hp with h | h
  · exact to_romaji_extra_keys_ok p h
  · exact table_keys_not_kanji to_romaji_base_keys_ok p h

theorem to_romaji_chars_not_kanji :
    ∀ ch ∈ TO_ROMAJI_CHARS, is_kanji ch = false := by
  intro ch hch
  unfold TO_ROMAJI_CHARS at hch
  obtain ⟨p, hp, hhead⟩ := List.mem_filterMap.mp hch
  exact to_romaji_keys_not_kanji p hp ch (List.mem_of_mem_head? hhead)

theorem contains_false_of_kanji {c : Char} (h : is_kanji c = true) :
    TO_ROMAJI_CHARS.contains c = false := by
  rw [Bool.eq_false_iff]
  intro hc
  have hin : c ∈ TO_ROMAJI_CHARS := List.elem_iff.mp hc
  have := to_romaji_chars_not_kanji c hin
  rw [h] at this
  exact absurd this (by decide)

theorem lookup_single_none {m : List (List Char × List Char)}
    (hkeys : ∀ p ∈ m, ∀ ch ∈ p.1, is_kanji ch = false) {c : Char}
    (hc : is_kanji c = true) : lookup_table m [c] = none := by
  induction m with
  | nil => rfl
  | cons p rest ih =>
    obtain ⟨k, v⟩ := p
    unfold lookup_table
    by_cases he : [c] = k
    · exfalso
      have hck : c ∈ k := by
        rw [← he]
        exact List.mem_cons_self _ _
      have := hkeys (k, v) (List.mem_cons_self _ _) c hck
      rw [hc] at this
      exact absurd this (by decide)
    · rw [if_neg he]
      exact ih fun p hp => hkeys p (List.mem_cons_of_mem _ hp)

theorem find_chunk_one_none {m : List (List Char × List Char)} {c : Char}
    {rest : List Char} (h : lookup_table m [c] = none) :
    find_chunk m (c :: rest) 1 = none := by
  unfold find_chunk
  rw [show (c :: rest).take 1 = [c] from rfl, h]
  rfl

theorem is_consonant_toNat_le {c : Char} {y : Bool} (h : is_consonant c y = true) :
    c.toNat ≤ 0x7A := by
  unfold is_consonant at h
  cases y with
  | false =>
    simp only [Bool.or_eq_true, Bool.and_eq_true, decide_eq_true_eq,
      char_eq_iff_toNat, Bool.and_false] at h
    simp at h
    omega
  | true =>
    simp only [Bool.or_eq_true, Bool.and_eq_true, decide_eq_true_eq,
      char_eq_iff_toNat, Bool.and_true] at h
    simp at h
    omega

/-! ## Claim C7 -/

theorem get_kind_kanji_ranges {c : Char} (h : get_kind c = CharKind.Kanji) :
    (0x4E00 ≤ c.toNat ∧ c.toNat ≤ 0x9FAF) ∨ (0x3400 ≤ c.toNat ∧ c.toNat ≤ 0x4DB5)
    ∨ (0x20000 ≤ c.toNat ∧ c.toNat ≤ 0x2A6D6)
    ∨ (0x2A700 ≤ c.toNat ∧ c.toNat ≤ 0x2B734)
    ∨ (0x2B740 ≤ c.toNat ∧ c.toNat ≤ 0x2B81D) := by
  unfold get_kind at h
  dsimp only at h
  by_cases hc1 : ((0x41 ≤ c.toNat && c.toNat ≤ 0x5A) || (0x61 ≤ c.toNat && c.toNat ≤ 0x7A)) = true
  · rw [if_pos hc1] at h
    exact absurd h (by decide)
  rw [if_neg hc1] at h
  by_cases hc2 : (c = 'â' || c = 'ê' || c = 'î' || c = 'ô' || c = 'û') = true
  · rw [if_pos hc2] at h
    exact absurd h (by decide)
  rw [if_neg hc2] at h
  by_cases hc3 : (c = 'Â' || c = 'Ê' || c = 'Î' || c = 'Ô' || c = 'Û') = true
  · rw [if_pos hc3] at h
    exact absurd h (by decide)
  rw [if_neg hc3] at h
  by_cases hc4 : (c = 'ā' || c = 'ē' || c = 'ī' || c = 'ō' || c = 'ū') = true
  · rw [if_pos hc4] at h
    exact absurd h (by decide)
  rw [if_neg hc4] at h
  by_cases hc5 : (c = 'Ā' || c = 'Ē' || c = 'Ī' || c = 'Ō' || c = 'Ū') = true
  · rw [if_pos hc5] at h
    exact absurd h (by decide)
  rw [if_neg hc5] at h
  by_cases hc6 : (0x30 ≤ c.toNat && c.toNat ≤ 0x39) = true
  · rw [if_pos hc6] at h
    exact absurd h (by decide)
  rw [if_neg hc6] at h
  by_cases hc7 : (c.toNat = 0x20 || c.toNat = 0x60 || c.toNat = 0x7E || c.toNat = 0x21 || c.toNat = 0x40 || c.toNat = 0x23 || c.toNat = 0x24 || c.toNat = 0x25 || c.toNat = 0x5E || c.toNat = 0x26 || c.toNat = 0x2A || c.toNat = 0x28 || c.toNat = 0x29 || c.toNat = 0x2D || c.toNat = 0x5F || c.toNat = 0x3D || c.toNat = 0x2B || c.toNat = 0x5B || c.toNat = 0x5D || c.toNat = 0x7B || c.toNat = 0x7D || c.toNat = 0x3B || c.toNat = 0x3A || c.toNat = 0x3C || c.toNat = 0x3E || c.toNat = 0x2C || c.toNat = 0x2E || c.toNat = 0x2F || c.toNat = 0x3F || c.toNat = 0x27 || c.toNat = 0x22 || c.toNat = 0x7C || c.toNat = 0x5C) = true
  · rw [if_pos hc7] at h
    exact absurd h (by decide)
  rw [if_neg hc7] at h
  by_cases hc8 : (c = 'ー' || c = 'ｰ') = true
  · rw [if_pos hc8] at h
    exact absurd h (by decide)
  rw [if_neg hc8] at h
  by_cases hc9 : c = 'ゟ'
  · rw [if_pos hc9] at h
    exact absurd h (by decide)
  rw [if_neg hc9] at h
  by_cases hc10 : c = 'ヿ'
  · rw [if_pos hc10] at h
    exact absurd h (by decide)
  rw [if_neg hc10] at h
  by_cases hc11 : (0xFF10 ≤ c.toNat && c.toNat ≤ 0xFF19) = true
  · rw [if_pos hc11] at h
    exact absurd h (by decide)
  rw [if_neg hc11] at h
  by_cases hc12 : (0xFF21 ≤ c.toNat && c.toNat ≤ 0xFF3A) = true
  · rw [if_pos hc12] at h
    exact absurd h (by decide)
  rw [if_neg hc12] at h
  by_cases hc13 : (0xFF41 ≤ c.toNat && c.toNat ≤ 0xFF5A) = true
  · rw [if_pos hc13] at h
    exact absurd h (by decide)
  rw [if_neg hc13] at h
  by_cases hc14 : (0xFF01 ≤ c.toNat && c.toNat ≤ 0xFF0F) = true
  · rw [if_pos hc14] at h
    exact absurd h (by decide)
  rw [if_neg hc14] at h
  by_cases hc15 : (0xFF1A ≤ c.toNat && c.toNat ≤ 0xFF20) = true
  · rw [if_pos hc15] at h
    exact absurd h (by decide)
  rw [if_neg hc15] at h
  by_cases hc16 : (0xFF3B ≤ c.toNat && c.toNat ≤ 0xFF40) = true
  · rw [if_pos hc16] at h
    exact absurd h (by decide)
  rw [if_neg hc16] at h
  by_cases hc17 : (0xFF5B ≤ c.toNat && c.toNat ≤ 0xFF5E) = true
  · rw [if_pos hc17] at h
    exact absurd h (by decide)
  rw [if_neg hc17] at h
  by_cases hc18 : (c = '　' || c = '、' || c = '。' || c = '〃' || c = '〈' || c = '〉' || c = '《' || c = '》' || c = '「' || c = '」' || c = '『' || c = '』' || c = '【' || c = '】' || c = '〔' || c = '〕' || c = '〖' || c = '〗' || c = '〘' || c = '〙' || c = '〚' || c = '〛' || c = '〜' || c = '〝' || c = '〞' || c = '〟' || c = '〰' || c = '〽') = true
  · rw [if_pos hc18] at h
    exact absurd h (by decide)
  rw [if_neg hc18] at h
  by_cases hc19 : (c = '々' || c = '〆' || c = '〱' || c = '〲' || c = '〳' || c = '〴' || c = '〵' || c = '〻' || c = '〼' || c = '゛' || c = '゜' || c = 'ゝ' || c = 'ゞ') = true
  · rw [if_pos hc19] at h
    exact absurd h (by decide)
  rw [if_neg hc19] at h
  by_cases hc20 : (c = '〄' || c = '〇' || c = '〒' || c = '〓' || c = '〠' || c = '〶' || c = '〷' || c = '〾' || c = '〿') = true
  · rw [if_pos hc20] at h
    exact absurd h (by decide)
  rw [if_neg hc20] at h
  by_cases hc21 : (0xFF5F ≤ c.toNat && c.toNat ≤ 0xFF65) = true
  · rw [if_pos hc21] at h
    exact absurd h (by decide)
  rw [if_neg hc21] at h
  by_cases hc22 : (c = '゠' || c = '・') = true
  · rw [if_pos hc22] at h
    exact absurd h (by decide)
  rw [if_neg hc22] at h
  by_cases hc23 : (c = 'ヽ' || c = 'ヾ') = true
  · rw [if_pos hc23] at h
    exact absurd h (by decide)
  rw [if_neg hc23] at h
  by_cases hc24 : (0xFFE0 ≤ c.toNat && c.toNat ≤ 0xFFEE) = true
  · rw [if_pos hc24] at h
    exact absurd h (by decide)
  rw [if_neg hc24] at h
  by_cases hc25 : (0x3200 ≤ c.toNat && c.toNat ≤ 0x32FE) = true
  · rw [if_pos hc25] at h
    exact absurd h (by decide)
  rw [if_neg hc25] at h
  by_cases hc26 : (0x3300 ≤ c.toNat && c.toNat ≤ 0x33FF) = true
  · rw [if_pos hc26] at h
    exact absurd h (by decide)
  rw [if_neg hc26] at h
  by_cases hc27 : (0x2E80 ≤ c.toNat && c.toNat ≤ 0x2EF3) = true
  · rw [if_pos hc27] at h
    exact absurd h (by decide)
  rw [if_neg hc27] at h
  by_cases hc28 : (0x2F00 ≤ c.toNat && c.toNat ≤ 0x2FD5) = true
  · rw [if_pos hc28] at h
    exact absurd h (by decide)
  rw [if_neg hc28] at h
  by_cases hc29 : (HIRAGANA_START ≤ c.toNat && c.toNat ≤ HIRAGANA_END) = true
  · rw [if_pos hc29] at h
    exact absurd h (by decide)
  rw [if_neg hc29] at h
  by_cases hc30 : (KATAKANA_START ≤ c.toNat && c.toNat ≤ KATAKANA_END) = true
  · rw [if_pos hc30] at h
    exact absurd h (by decide)
  rw [if_neg hc30] at h
  by_cases hc31 : (SMALL_KATAKANA_START ≤ c.toNat && c.toNat ≤ SMALL_KATAKANA_END) = true
  · rw [if_pos hc31] at h
    exact absurd h (by decide)
  rw [if_neg hc31] at h
  by_cases hc32 : (HALF_KATAKANA_START ≤ c.toNat && c.toNat ≤ HALF_KATAKANA_END) = true
  · rw [if_pos hc32] at h
    exact absurd h (by decide)
  rw [if_neg hc32] at h
  by_cases hc33 : (KANJI_START ≤ c.toNat && c.toNat ≤ KANJI_END) = true
  · exact Or.inl (by simpa using hc33)
  rw [if_neg hc33] at h
  by_cases hc34 : (KANJI_START_A ≤ c.toNat && c.toNat ≤ KANJI_END_A) = true
  · exact Or.inr (Or.inl (by simpa using hc34))
  rw [if_neg hc34] at h
  by_cases hc35 : (KANJI_START_B ≤ c.toNat && c.toNat ≤ KANJI_END_B) = true
  · exact Or.inr (Or.inr (Or.inl (by simpa using hc35)))
  rw [if_neg hc35] at h
  by_cases hc36 : (KANJI_START_C ≤ c.toNat && c.toNat ≤ KANJI_END_C) = true
  · exact Or.inr (Or.inr (Or.inr (Or.inl (by simpa using hc36))))
  rw [if_neg hc36] at h
  by_cases hc37 : (KANJI_START_D ≤ c.toNat && c.toNat ≤ KANJI_END_D) = true
  · exact Or.inr (Or.inr (Or.inr (Or.inr (by simpa using hc37))))
  rw [if_neg hc37] at h
  exact absurd h (by decide)

/-- C7: every character classified as Kanji by `get_kind` passes through
all three conversion functions unchanged and in place: `to_hiragana`
emits it verbatim and continues, `to_katakana` likewise (the
Hiragana-to-Katakana shift leaves it fixed), and the `to_romaji` scan in
any state flushes at most a pending apostrophe and emits the character
verbatim with the last-romaji state unchanged; in particular each
function maps the one-character string of the character to itself. -/
theorem c7_kanji_pass_through :
    ∀ c : Char, get_kind c = CharKind.Kanji →
      (∀ rest : List Char, to_hiragana (c :: rest) = c :: to_hiragana rest)
      ∧ (∀ rest : List Char, to_katakana (c :: rest) = c :: to_katakana rest)
      ∧ (∀ (tsu : Bool) (last rest : List Char),
          to_romaji_aux tsu last (c :: rest)
            = (if tsu then [SMALL_TSU_REPR] else [])
              ++ c :: to_romaji_aux false last rest)
      ∧ to_hiragana [c] = [c] ∧ to_katakana [c] = [c] ∧ to_romaji [c] = [c] := by
  intro c hk
  have hr := get_kind_kanji_ranges hk
  have hge : 0x3400 ≤ c.toNat := by omega
  have hkanji : is_kanji c = true := is_kanji_iff.mpr hr
  have h1 : ¬(char_in_range c KATAKANA_START KATAKANA_TO_HIRAGANA_END = true) := by
    intro hx
    have hx1 : (0x30A1 : Nat) ≤ c.toNat ∧ c.toNat ≤ 0x30F6 := char_in_range_iff.mp hx
    omega
  have h2 : ¬(char_in_range c HIRAGANA_START HIRAGANA_END = true) := by
    intro hx
    have hx1 : (0x3041 : Nat) ≤ c.toNat ∧ c.toNat ≤ 0x3096 := char_in_range_iff.mp hx
    omega
  have hcond : ¬(c = ':' ∨ 0x61 ≤ c.toNat ∧ c.toNat ≤ 0x7A
      ∨ 0x41 ≤ c.toNat ∧ c.toNat ≤ 0x5A) := by
    rintro (rfl | hx | hx)
    · exact absurd hge (by decide)
    · omega
    · omega
  have hhira : ∀ rest : List Char, to_hiragana (c :: rest) = c :: to_hiragana rest := by
    intro rest
    refine to_hiragana_pass c rest h1 h2 ?_ ?_
    · rintro ⟨-, -, hcons, -⟩
      have := is_consonant_toNat_le hcons
      omega
    · rw [if_neg hcond]
      exact find_chunk_one_none (lookup_single_none to_hiragana_keys_not_kanji hkanji)
  have hfix : hiragana_to_katakana c = c := by
    apply char_eq_of_toNat_eq
    rw [toNat_hiragana_to_katakana]
    have s := h2k_code_spec c.toNat
    omega
  have hkata : ∀ rest : List Char, to_katakana (c :: rest) = c :: to_katakana rest := by
    intro rest
    unfold to_katakana
    rw [hhira rest]
    simp [hfix]
  have hrom : ∀ (tsu : Bool) (last rest : List Char),
      to_romaji_aux tsu last (c :: rest)
        = (if tsu then [SMALL_TSU_REPR] else [])
          ++ c :: to_romaji_aux false last rest := by
    intro tsu last rest
    refine to_romaji_aux_pass tsu last c rest ?_ ?_ (contains_false_of_kanji hkanji)
    · rintro (rfl | rfl) <;> exact absurd hge (by decide)
    · rintro (rfl | rfl | rfl | rfl) <;> exact absurd hge (by decide)
  refine ⟨hhira, hkata, hrom, ?_, ?_, ?_⟩
  · rw [hhira []]
    rfl
  · rw [hkata []]
    rfl
  · show to_romaji_aux false [] [c] = [c]
    rw [hrom false [] []]
    rfl

/-- C7 witness: the pass-through facts at the concrete Kanji `一`
(U+4E00), with the `get_kind` hypothesis discharged by evaluation. -/
theorem c7_witness :
    to_hiragana ['一', 'a'] = '一' :: to_hiragana ['a']
    ∧ to_hiragana ['一'] = ['一'] ∧ to_katakana ['一'] = ['一']
    ∧ to_romaji ['一'] = ['一'] :=
  ⟨(c7_kanji_pass_through '一' (by decide)).1 ['a'],
   (c7_kanji_pass_through '一' (by decide)).2.2.2.1,
   (c7_kanji_pass_through '一' (by decide)).2.2.2.2.1,
   (c7_kanji_pass_through '一' (by decide)).2.2.2.2.2⟩

/-! ## Claim C3 -/

/-- The direct Katakana-to-Hiragana offset shift of `to_hiragana`. -/
def katakana_shift_down (c : Char) : Char :=
  Char.ofNat (c.toNat - KATAKANA_TO_HIRAGANA_OFFSET_SUB)

theorem katakana_shift_down_toNat {c : Char}
    (h : 0x30A1 ≤ c.toNat ∧ c.toNat ≤ 0x30F6) :
    (katakana_shift_down c).toNat = c.toNat - 0x60 := by
  unfold katakana_shift_down
  have hoff : KATAKANA_TO_HIRAGANA_OFFSET_SUB = 0x60 := rfl
  rw [hoff]
  exact char_toNat_ofNat (Or.inl (by omega))

theorem to_hiragana_direct {k : List Char}
    (h : ∀ c ∈ k, 0x30A1 ≤ c.toNat ∧ c.toNat ≤ 0x30F6) :
    to_hiragana k = k.map katakana_shift_down := by
  induction k with
  | nil => rfl
  | cons c rest ih =>
    have hc := h c (List.mem_cons_self _ _)
    rw [to_hiragana_katakana_cons c rest (char_in_range_iff.mpr hc),
      ih fun x hx => h x (List.mem_cons_of_mem _ hx)]
    rfl

theorem to_hiragana_fixed {l : List Char}
    (h : ∀ c ∈ l, 0x3041 ≤ c.toNat ∧ c.toNat ≤ 0x3096) :
    to_hiragana l = l := by
  induction l with
  | nil => rfl
  | cons c rest ih =>
    have hc := h c (List.mem_cons_self _ _)
    rw [to_hiragana_hira_cons c rest (char_in_range_iff.mpr hc),
      ih fun x hx => h x (List.mem_cons_of_mem _ hx)]

theorem h2k_shift_down {c : Char} (h : 0x30A1 ≤ c.toNat ∧ c.toNat ≤ 0x30F6) :
    hiragana_to_katakana (katakana_shift_down c) = c := by
  apply char_eq_of_toNat_eq
  rw [toNat_hiragana_to_katakana, katakana_shift_down_toNat h]
  have s := h2k_code_spec (c.toNat - 0x60)
  omega

/-- C3: for every full-width Katakana string whose characters each have
a single-character Hiragana rendering (this excludes the compound forms
ヷ ヸ ヹ ヺ, whose renderings are two characters, and likewise the
digraph ヿ), converting to Hiragana and back to Katakana is the
identity. -/
theorem c3_katakana_round_trip :
    ∀ k : List Char,
      (∀ c ∈ k, char_in_range c KATAKANA_START KATAKANA_END = true
        ∧ (to_hiragana [c]).length = 1) →
      to_katakana (to_hiragana k) = k := by
  intro k hk
  have hdir : ∀ c ∈ k, 0x30A1 ≤ c.toNat ∧ c.toNat ≤ 0x30F6 := by
    intro c hc
    obtain ⟨hr, hlen⟩ := hk c hc
    have hr1 : (0x30A1 : Nat) ≤ c.toNat ∧ c.toNat ≤ 0x30FA := char_in_range_iff.mp hr
    by_cases hcon : c.toNat ≤ 0x30F6
    · exact ⟨hr1.1, hcon⟩
    exfalso
    have h4 : c.toNat = 0x30F7 ∨ c.toNat = 0x30F8 ∨ c.toNat = 0x30F9
        ∨ c.toNat = 0x30FA := by omega
    rcases h4 with h | h | h | h
    · rw [char_eq_of_toNat_eq (show c.toNat = ('ヷ').toNat from h)] at hlen
      exact absurd hlen (by decide)
    · rw [char_eq_of_toNat_eq (show c.toNat = ('ヸ').toNat from h)] at hlen
      exact absurd hlen (by decide)
    · rw [char_eq_of_toNat_eq (show c.toNat = ('ヹ').toNat from h)] at hlen
      exact absurd hlen (by decide)
    · rw [char_eq_of_toNat_eq (show c.toNat = ('ヺ').toNat from h)] at hlen
      exact absurd hlen (by decide)
  rw [to_hiragana_direct hdir]
  unfold to_katakana
  have hshift : ∀ c ∈ k.map katakana_shift_down,
      0x3041 ≤ c.toNat ∧ c.toNat ≤ 0x3096 := by
    intro c hc
    obtain ⟨c0, hc0, hc0e⟩ := List.mem_map.mp hc
    have hd := hdir c0 hc0
    rw [← hc0e, katakana_shift_down_toNat hd]
    omega
  rw [to_hiragana_fixed hshift, List.map_map]
  have hcongr : List.map (hiragana_to_katakana ∘ katakana_shift_down) k
      = List.map id k :=
    List.map_congr_left fun c hc => h2k_shift_down (hdir c hc)
  rw [hcongr]
  exact List.map_id k

/-- C3 witness: the round trip at the concrete Katakana string カナ. -/
theorem c3_witness : to_katakana (to_hiragana "カナ".data) = "カナ".data :=
  c3_katakana_round_trip "カナ".data (by decide)

/-! ## Claim C8 -/

/-- C8: the claim says `is_kanji` accepts the base CJK block and every
extension block A through F.  In the code `is_kanji` stops at extension D:
the first codepoints of extensions E (U+2B820) and F (U+2CEB0) are
rejected, although the `kanji_range` pattern of `ranges.rs` accepts them
and the repository's own `test_char_kind` test asserts `is_kanji` on
characters from both blocks.  This theorem evaluates the code at the
failing inputs and exhibits the divergence. -/
theorem c8_is_kanji_stops_at_extension_d :
    is_kanji (Char.ofNat 0x2B820) = false ∧ kanji_range (Char.ofNat 0x2B820) = true
    ∧ is_kanji (Char.ofNat 0x2CEB0) = false ∧ kanji_range (Char.ofNat 0x2CEB0) = true
    ∧ is_kanji '一' = true ∧ is_kanji (Char.ofNat 0x3400) = true
    ∧ is_kanji (Char.ofNat 0x20000) = true ∧ is_kanji (Char.ofNat 0x2A700) = true
    ∧ is_kanji (Char.ofNat 0x2B740) = true := by
  decide

/-! ## Claim C9 -/

/-- C9 counterexample: the claim states that the half-width Katakana
membership used by the classifier, and hence `is_katakana`, rejects the
half-width prolonged sound mark `ｰ` (U+FF70).  In the code `is_katakana`
tests the contiguous constant range U+FF66..U+FF9D, which contains
U+FF70, so `is_katakana` accepts it. -/
theorem c9_counterexample_is_katakana_ff70 :
    is_katakana (Char.ofNat 0xFF70) = true := by
  decide

/-- C9 amended: the `katakana_half_range` pattern of `ranges.rs` does skip
the half-width prolonged sound mark U+FF70, which belongs to the
prolonged-mark pattern instead, and `get_kind` classifies it as `BarLine`
rather than `KatakanaHalfWidth`; but `is_katakana`, whose half-width
range is the contiguous U+FF66..U+FF9D, does accept it. -/
theorem c9_half_width_prolonged_mark :
    katakana_half_range (Char.ofNat 0xFF70) = false
    ∧ prolonged_mark_range (Char.ofNat 0xFF70) = true
    ∧ get_kind (Char.ofNat 0xFF70) = CharKind.BarLine
    ∧ is_katakana (Char.ofNat 0xFF70) = true := by
  decide

/-! ## Claim C10 -/

/-- C10: the full-width prolonged sound mark `ー` (U+30FC) is accepted by
neither `is_hiragana` nor `is_katakana` (despite the doc comments saying
Katakana "or ー"), while `is_kana` accepts it through its explicit extra
disjunct. -/
theorem c10_prolonged_mark_kana :
    is_katakana 'ー' = false ∧ is_hiragana 'ー' = false ∧ is_kana 'ー' = true := by
  decide

/-! ## Claim C4

The claim asserts `to_hiragana(upper(x)) == upper(to_hiragana(x))` (and the
lower-case analogue) for every Romaji/Hiragana/Katakana input.  The
double-consonant branch of `to_hiragana` compares the next two characters
byte-wise and case-SENSITIVELY, so a mixed-case double consonant such as
"Kk" breaks the equation: upper-casing first yields "KK" which the scanner
contracts to a small tsu, while "Kk" itself does not contract.  The
equation does hold on inputs without such mixed-case consonant pairs; the
development below proves that amended statement. -/

/-- Codepoint-level version of `is_consonant` (the exact code points of the
character literals matched by the Rust source). -/
def consonant_code (n : Nat) (include_y : Bool) : Bool :=
  (n = 0x62 || n = 0x63 || n = 0x64 || n = 0x66 || n = 0x67 || n = 0x68 || n = 0x6A
    || n = 0x6B || n = 0x6C || n = 0x6D)
  || (n = 0x42 || n = 0x43 || n = 0x44 || n = 0x46 || n = 0x47 || n = 0x48 || n = 0x4A
    || n = 0x4B || n = 0x4C || n = 0x4D)
  || (n = 0x6E || n = 0x70 || n = 0x71 || n = 0x72 || n = 0x73 || n = 0x74 || n = 0x76
    || n = 0x77 || n = 0x78 || n = 0x7A)
  || (n = 0x4E || n = 0x50 || n = 0x51 || n = 0x52 || n = 0x53 || n = 0x54 || n = 0x56
    || n = 0x57 || n = 0x58 || n = 0x5A)
  || ((n = 0x79 || n = 0x59) && include_y)

/-- A pair of adjacent characters that defeats case invariance of the
double-consonant branch: a non-n consonant followed by a different
character with the same upper- or lower-case image. -/
def bad_pair (c1 c2 : Char) : Bool :=
  is_consonant c1 true && c1 ≠ 'n' && c1 ≠ 'N' && c1 ≠ c2
    && (rust_to_upper c1 = rust_to_upper c2 || rust_to_lower c1 = rust_to_lower c2)

/-- A string is case-safe when no adjacent pair is a `bad_pair`. -/
def case_safe : List Char → Bool
  | c1 :: c2 :: rest => !(bad_pair c1 c2) && case_safe (c2 :: rest)
  | _ => true

/-- The character domain on which the embedded simple case mappings agree
with Rust `char::to_uppercase`/`to_lowercase`: ASCII, the ten accented
vowels in both cases, the curly quotes used as table keys, and the CJK
punctuation/Hiragana/Katakana blocks (case-fixed in Unicode). -/
def romaji_kana_char (c : Char) : Bool :=
  c.toNat < 0x80
  || (c = 'â' || c = 'ê' || c = 'î' || c = 'ô' || c = 'û'
      || c = 'Â' || c = 'Ê' || c = 'Î' || c = 'Ô' || c = 'Û'
      || c = 'ā' || c = 'ē' || c = 'ī' || c = 'ō' || c = 'ū'
      || c = 'Ā' || c = 'Ē' || c = 'Ī' || c = 'Ō' || c = 'Ū')
  || (0x2018 ≤ c.toNat && c.toNat ≤ 0x201D)
  || (0x3000 ≤ c.toNat && c.toNat ≤ 0x30FF)

/-- A case variant of a key: character-wise either the lower-case or the
upper-case version. -/
def is_variant : List Char → List Char → List Char → Bool
  | [], [], [] => true
  | l :: ls, u :: us, x :: xs => (x = l || x = u) && is_variant ls us xs
  | _, _, _ => false

theorem upper_code_idem (n : Nat) : upper_code (upper_code n) = upper_code n := by
  have s1 := upper_code_spec n
  have s2 := upper_code_spec (upper_code n)
  omega

theorem upper_code_big {n : Nat} (h : 0x200 ≤ n) : upper_code n = n := by
  have s := upper_code_spec n
  omega

theorem lower_code_big {n : Nat} (h : 0x200 ≤ n) : lower_code n = n := by
  have s := lower_code_spec n
  omega

theorem upper_code_retract (x : Nat) :
    x = upper_code x ∨ x = lower_code (upper_code x) := by
  by_cases hx : x < 0x200
  · exact (by decide :
      ∀ x < 0x200, x = upper_code x ∨ x = lower_code (upper_code x)) x hx
  · exact Or.inl (upper_code_big (by omega)).symm

theorem lower_code_retract (x : Nat) :
    x = lower_code x ∨ x = upper_code (lower_code x) := by
  by_cases hx : x < 0x200
  · exact (by decide :
      ∀ x < 0x200, x = lower_code x ∨ x = upper_code (lower_code x)) x hx
  · exact Or.inl (lower_code_big (by omega)).symm

theorem lower_upper_code {m : Nat} (hm : lower_code m = m) :
    lower_code (upper_code m) = m := by
  by_cases h : m < 0x200
  · exact (by decide :
      ∀ m < 0x200, lower_code m = m → lower_code (upper_code m) = m) m h hm
  · rw [upper_code_big (by omega), hm]

theorem upper_code_preimage {x m : Nat} (hm : lower_code m = m)
    (h : upper_code x = m ∨ upper_code x = upper_code m) :
    x = m ∨ x = upper_code m := by
  rcases h with h | h
  · rcases upper_code_retract x with h1 | h1
    · exact Or.inl (by rw [h1, h])
    · exact Or.inl (by rw [h1, h, hm])
  · rcases upper_code_retract x with h1 | h1
    · exact Or.inr (by rw [h1, h])
    · exact Or.inl (by rw [h1, h, lower_upper_code hm])

theorem lower_code_preimage {x m : Nat} (hm : lower_code m = m)
    (h : lower_code x = m ∨ lower_code x = upper_code m) :
    x = m ∨ x = upper_code m := by
  rcases h with h | h
  · rcases lower_code_retract x with h1 | h1
    · exact Or.inl (by rw [h1, h])
    · exact Or.inr (by rw [h1, h])
  · rcases lower_code_retract x with h1 | h1
    · exact Or.inr (by rw [h1, h])
    · exact Or.inr (by rw [h1, h, upper_code_idem])

theorem rust_to_upper_fixed {c : Char} (h : 0x3000 ≤ c.toNat) :
    rust_to_upper c = c := by
  have s := upper_code_spec c.toNat
  exact char_eq_of_toNat_eq (by rw [toNat_rust_to_upper]; omega)

theorem rust_to_lower_fixed {c : Char} (h : 0x3000 ≤ c.toNat) :
    rust_to_lower c = c := by
  have s := lower_code_spec c.toNat
  exact char_eq_of_toNat_eq (by rw [toNat_rust_to_lower]; omega)

theorem rust_to_upper_small {c : Char} (h : c.toNat < 0x3000) :
    (rust_to_upper c).toNat < 0x3000 := by
  rw [toNat_rust_to_upper]
  have s := upper_code_spec c.toNat
  omega

theorem rust_to_lower_small {c : Char} (h : c.toNat < 0x3000) :
    (rust_to_lower c).toNat < 0x3000 := by
  rw [toNat_rust_to_lower]
  have s := lower_code_spec c.toNat
  omega

theorem is_consonant_code (c : Char) (y : Bool) :
    is_consonant c y = consonant_code c.toNat y := by
  have hd : ∀ d : Char, (decide (c = d)) = decide (c.toNat = d.toNat) :=
    fun d => decide_eq_decide.mpr char_eq_iff_toNat
  unfold is_consonant consonant_code
  simp only [hd]
  rfl

theorem consonant_code_shift (y : Bool) :
    ∀ n < 0x7B, 0x61 ≤ n → consonant_code (n - 0x20) y = consonant_code n y := by
  cases y <;> decide

theorem consonant_code_shift_up (y : Bool) :
    ∀ n < 0x5B, 0x41 ≤ n → consonant_code (n + 0x20) y = consonant_code n y := by
  cases y <;> decide

theorem is_consonant_upper (c : Char) (y : Bool) :
    is_consonant (rust_to_upper c) y = is_consonant c y := by
  rw [is_consonant_code, is_consonant_code, toNat_rust_to_upper]
  rcases upper_code_spec c.toNat with
    ⟨h1, h2, h3⟩ | h | h | h | h | h | h | h | h | h | h
    | ⟨-, -, -, -, -, -, -, -, -, -, -, heq⟩
  · rw [h3]
    exact consonant_code_shift y c.toNat (by omega) h1
  · rw [h.2, h.1]; cases y <;> decide
  · rw [h.2, h.1]; cases y <;> decide
  · rw [h.2, h.1]; cases y <;> decide
  · rw [h.2, h.1]; cases y <;> decide
  · rw [h.2, h.1]; cases y <;> decide
  · rw [h.2, h.1]; cases y <;> decide
  · rw [h.2, h.1]; cases y <;> decide
  · rw [h.2, h.1]; cases y <;> decide
  · rw [h.2, h.1]; cases y <;> decide
  · rw [h.2, h.1]; cases y <;> decide
  · rw [heq]

theorem is_consonant_lower (c : Char) (y : Bool) :
    is_consonant (rust_to_lower c) y = is_consonant c y := by
  rw [is_consonant_code, is_consonant_code, toNat_rust_to_lower]
  rcases lower_code_spec c.toNat with
    ⟨h1, h2, h3⟩ | h | h | h | h | h | h | h | h | h | h
    | ⟨-, -, -, -, -, -, -, -, -, -, -, heq⟩
  · rw [h3]
    exact consonant_code_shift_up y c.toNat (by omega) h1
  · rw [h.2, h.1]; cases y <;> decide
  · rw [h.2, h.1]; cases y <;> decide
  · rw [h.2, h.1]; cases y <;> decide
  · rw [h.2, h.1]; cases y <;> decide
  · rw [h.2, h.1]; cases y <;> decide
  · rw [h.2, h.1]; cases y <;> decide
  · rw [h.2, h.1]; cases y <;> decide
  · rw [h.2, h.1]; cases y <;> decide
  · rw [h.2, h.1]; cases y <;> decide
  · rw [h.2, h.1]; cases y <;> decide
  · rw [heq]

theorem upper_nN_iff (c : Char) :
    (rust_to_upper c = 'n' ∨ rust_to_upper c = 'N') ↔ (c = 'n' ∨ c = 'N') := by
  constructor
  · intro h
    have h1 : upper_code c.toNat = 0x6E ∨ upper_code c.toNat = 0x4E := by
      rcases h with h | h
      · exact Or.inl (by rw [← toNat_rust_to_upper, h]; rfl)
      · exact Or.inr (by rw [← toNat_rust_to_upper, h]; rfl)
    have s := upper_code_spec c.toNat
    have h2 : c.toNat = 0x6E ∨ c.toNat = 0x4E := by omega
    rcases h2 with h2 | h2
    · exact Or.inl (char_eq_of_toNat_eq h2)
    · exact Or.inr (char_eq_of_toNat_eq h2)
  · intro h
    rcases h with h | h <;> subst h
    · exact Or.inr (by decide)
    · exact Or.inr (by decide)

theorem lower_nN_iff (c : Char) :
    (rust_to_lower c = 'n' ∨ rust_to_lower c = 'N') ↔ (c = 'n' ∨ c = 'N') := by
  constructor
  · intro h
    have h1 : lower_code c.toNat = 0x6E ∨ lower_code c.toNat = 0x4E := by
      rcases h with h | h
      · exact Or.inl (by rw [← toNat_rust_to_lower, h]; rfl)
      · exact Or.inr (by rw [← toNat_rust_to_lower, h]; rfl)
    have s := lower_code_spec c.toNat
    have h2 : c.toNat = 0x6E ∨ c.toNat = 0x4E := by omega
    rcases h2 with h2 | h2
    · exact Or.inl (char_eq_of_toNat_eq h2)
    · exact Or.inr (char_eq_of_toNat_eq h2)
  · intro h
    rcases h with h | h <;> subst h
    · exact Or.inl (by decide)
    · exact Or.inl (by decide)

theorem upper_letter_iff (c : Char) :
    (rust_to_upper c = ':'
      ∨ 0x61 ≤ (rust_to_upper c).toNat ∧ (rust_to_upper c).toNat ≤ 0x7A
      ∨ 0x41 ≤ (rust_to_upper c).toNat ∧ (rust_to_upper c).toNat ≤ 0x5A)
    ↔ (c = ':' ∨ 0x61 ≤ c.toNat ∧ c.toNat ≤ 0x7A
      ∨ 0x41 ≤ c.toNat ∧ c.toNat ≤ 0x5A) := by
  have hu := toNat_rust_to_upper c
  have s := upper_code_spec c.toNat
  constructor
  · intro h
    rcases h with h | h
    · have h1 : upper_code c.toNat = 0x3A := by rw [← hu, h]; rfl
      have h2 : c.toNat = 0x3A := by omega
      exact Or.inl (char_eq_of_toNat_eq h2)
    · rw [hu] at h
      right; omega
  · intro h
    rcases h with h | h
    · subst h; left; decide
    · rw [hu]; right; omega

theorem lower_letter_iff (c : Char) :
    (rust_to_lower c = ':'
      ∨ 0x61 ≤ (rust_to_lower c).toNat ∧ (rust_to_lower c).toNat ≤ 0x7A
      ∨ 0x41 ≤ (rust_to_lower c).toNat ∧ (rust_to_lower c).toNat ≤ 0x5A)
    ↔ (c = ':' ∨ 0x61 ≤ c.toNat ∧ c.toNat ≤ 0x7A
      ∨ 0x41 ≤ c.toNat ∧ c.toNat ≤ 0x5A) := by
  have hu := toNat_rust_to_lower c
  have s := lower_code_spec c.toNat
  constructor
  · intro h
    rcases h with h | h
    · have h1 : lower_code c.toNat = 0x3A := by rw [← hu, h]; rfl
      have h2 : c.toNat = 0x3A := by omega
      exact Or.inl (char_eq_of_toNat_eq h2)
    · rw [hu] at h
      right; omega
  · intro h
    rcases h with h | h
    · subst h; left; decide
    · rw [hu]; right; omega

theorem case_safe_tail {c : Char} {s : List Char} (h : case_safe (c :: s) = true) :
    case_safe s = true := by
  cases s with
  | nil => rfl
  | cons c2 t =>
    simp only [case_safe, Bool.and_eq_true] at h
    exact h.2

theorem case_safe_head {c1 c2 : Char} {s : List Char}
    (h : case_safe (c1 :: c2 :: s) = true) : bad_pair c1 c2 = false := by
  simp only [case_safe, Bool.and_eq_true, Bool.not_eq_true'] at h
  exact h.1

theorem case_safe_drop (j : Nat) : ∀ {s : List Char}, case_safe s = true →
    case_safe (s.drop j) = true := by
  induction j with
  | zero => intro s h; exact h
  | succ j ih =>
    intro s h
    cases s with
    | nil => exact h
    | cons a t => exact ih (case_safe_tail h)

end Kana

namespace Kana

/-! ### Case variants of table keys -/

theorem is_variant_self : ∀ (k uc : List Char), k.length = uc.length →
    is_variant k uc k = true := by
  intro k
  induction k with
  | nil =>
    intro uc h
    cases uc with
    | nil => rfl
    | cons u us => simp at h
  | cons l ls ih =>
    intro uc h
    cases uc with
    | nil => simp at h
    | cons u us =>
      simp only [is_variant, Bool.and_eq_true, Bool.or_eq_true, decide_eq_true_eq]
      exact ⟨Or.inl (by trivial), ih us (by simpa using h)⟩

theorem is_variant_uc : ∀ (k uc : List Char), k.length = uc.length →
    is_variant k uc uc = true := by
  intro k
  induction k with
  | nil =>
    intro uc h
    cases uc with
    | nil => rfl
    | cons u us => simp at h
  | cons l ls ih =>
    intro uc h
    cases uc with
    | nil => simp at h
    | cons u us =>
      simp only [is_variant, Bool.and_eq_true, Bool.or_eq_true, decide_eq_true_eq]
      exact ⟨Or.inr (by trivial), ih us (by simpa using h)⟩

theorem is_variant_same : ∀ (k x : List Char), is_variant k k x = true → x = k := by
  intro k
  induction k with
  | nil =>
    intro x h
    cases x with
    | nil => rfl
    | cons a t => simp [is_variant] at h
  | cons l ls ih =>
    intro x h
    cases x with
    | nil => simp [is_variant] at h
    | cons x0 xs =>
      simp only [is_variant, Bool.and_eq_true, Bool.or_eq_true, decide_eq_true_eq] at h
      have hx : x0 = l := by rcases h.1 with h1 | h1 <;> exact h1
      rw [hx, ih xs h.2]

theorem gen_keys_list_iff : ∀ (lc uc base s : List Char), lc.length = uc.length →
    (s ∈ gen_keys_list lc uc base ↔
      ∃ t, is_variant lc uc t = true ∧ s = base ++ t) := by
  intro lc
  induction lc with
  | nil =>
    intro uc base s h
    cases uc with
    | nil =>
      simp only [gen_keys_list, List.mem_singleton]
      constructor
      · intro hs
        exact ⟨[], rfl, by rw [hs, List.append_nil]⟩
      · rintro ⟨t, ht, rfl⟩
        cases t with
        | nil => rw [List.append_nil]
        | cons a t => simp [is_variant] at ht
    | cons u us => simp at h
  | cons l ls ih =>
    intro uc base s h
    cases uc with
    | nil => simp at h
    | cons u us =>
      have hl : ls.length = us.length := by simpa using h
      rw [gen_keys_list]
      constructor
      · intro hs
        rcases List.mem_append.mp hs with h1 | h1
        · obtain ⟨t, ht, rfl⟩ := (ih us (base ++ [l]) _ hl).mp h1
          refine ⟨l :: t, ?_, by simp⟩
          simp only [is_variant, Bool.and_eq_true, Bool.or_eq_true, decide_eq_true_eq]
          exact ⟨Or.inl (by trivial), ht⟩
        · by_cases hlu : l ≠ u
          · rw [if_pos hlu] at h1
            obtain ⟨t, ht, rfl⟩ := (ih us (base ++ [u]) _ hl).mp h1
            refine ⟨u :: t, ?_, by simp⟩
            simp only [is_variant, Bool.and_eq_true, Bool.or_eq_true, decide_eq_true_eq]
            exact ⟨Or.inr (by trivial), ht⟩
          · rw [if_neg hlu] at h1
            simp at h1
      · rintro ⟨t, ht, rfl⟩
        cases t with
        | nil => simp [is_variant] at ht
        | cons x xs =>
          have ht' : (x = l ∨ x = u) ∧ is_variant ls us xs = true := by
            simpa only [is_variant, Bool.and_eq_true, Bool.or_eq_true,
              decide_eq_true_eq] using ht
          rcases ht'.1 with h1 | h1
          · exact List.mem_append.mpr (Or.inl
              ((ih us (base ++ [l]) _ hl).mpr ⟨xs, ht'.2, by rw [h1]; simp⟩))
          · by_cases hlu : l ≠ u
            · rw [if_pos hlu]
              exact List.mem_append.mpr (Or.inr
                ((ih us (base ++ [u]) _ hl).mpr ⟨xs, ht'.2, by rw [h1]; simp⟩))
            · have hlu' : l = u := not_ne_iff.mp hlu
              rw [if_neg hlu]
              rw [List.append_nil]
              exact (ih us (base ++ [l]) _ hl).mpr
                ⟨xs, ht'.2, by rw [h1, ← hlu']; simp⟩

theorem is_variant_map_upper : ∀ (k t : List Char),
    (∀ ch ∈ k, rust_to_lower ch = ch) →
    is_variant k (k.map rust_to_upper) t = true →
    t.map rust_to_upper = k.map rust_to_upper := by
  intro k
  induction k with
  | nil =>
    intro t hk ht
    cases t with
    | nil => rfl
    | cons a l => simp [is_variant] at ht
  | cons l ls ih =>
    intro t hk ht
    cases t with
    | nil => simp [is_variant] at ht
    | cons x xs =>
      have ht' : (x = l ∨ x = rust_to_upper l)
          ∧ is_variant ls (ls.map rust_to_upper) xs = true := by
        simpa only [List.map_cons, is_variant, Bool.and_eq_true, Bool.or_eq_true,
          decide_eq_true_eq] using ht
      have hrec := ih xs (fun ch hch => hk ch (List.mem_cons_of_mem _ hch)) ht'.2
      simp only [List.map_cons]
      rcases ht'.1 with h1 | h1
      · rw [h1, hrec]
      · rw [h1, hrec]
        congr 1
        exact char_eq_of_toNat_eq
          (by rw [toNat_rust_to_upper, toNat_rust_to_upper]
              exact upper_code_idem _)

theorem is_variant_map_lower : ∀ (k t : List Char),
    (∀ ch ∈ k, rust_to_lower ch = ch) →
    is_variant k (k.map rust_to_upper) t = true →
    t.map rust_to_lower = k := by
  intro k
  induction k with
  | nil =>
    intro t hk ht
    cases t with
    | nil => rfl
    | cons a l => simp [is_variant] at ht
  | cons l ls ih =>
    intro t hk ht
    cases t with
    | nil => simp [is_variant] at ht
    | cons x xs =>
      have ht' : (x = l ∨ x = rust_to_upper l)
          ∧ is_variant ls (ls.map rust_to_upper) xs = true := by
        simpa only [List.map_cons, is_variant, Bool.and_eq_true, Bool.or_eq_true,
          decide_eq_true_eq] using ht
      have hrec := ih xs (fun ch hch => hk ch (List.mem_cons_of_mem _ hch)) ht'.2
      simp only [List.map_cons]
      have hlfix : lower_code l.toNat = l.toNat := by
        have h := congrArg Char.toNat (hk l (List.mem_cons_self _ _))
        rwa [toNat_rust_to_lower] at h
      rcases ht'.1 with h1 | h1
      · rw [h1, hk l (List.mem_cons_self _ _), hrec]
      · rw [h1, hrec]
        congr 1
        exact char_eq_of_toNat_eq
          (by rw [toNat_rust_to_lower, toNat_rust_to_upper]
              exact lower_upper_code hlfix)

theorem is_variant_of_map_upper : ∀ (k t : List Char),
    (∀ ch ∈ k, rust_to_lower ch = ch) →
    is_variant k (k.map rust_to_upper) (t.map rust_to_upper) = true →
    is_variant k (k.map rust_to_upper) t = true := by
  intro k
  induction k with
  | nil =>
    intro t hk ht
    cases t with
    | nil => rfl
    | cons a l => simp [is_variant] at ht
  | cons l ls ih =>
    intro t hk ht
    cases t with
    | nil => simp [is_variant] at ht
    | cons x xs =>
      have ht' : (rust_to_upper x = l ∨ rust_to_upper x = rust_to_upper l)
          ∧ is_variant ls (ls.map rust_to_upper) (xs.map rust_to_upper) = true := by
        simpa only [List.map_cons, is_variant, Bool.and_eq_true, Bool.or_eq_true,
          decide_eq_true_eq] using ht
      have hlfix : lower_code l.toNat = l.toNat := by
        have h := congrArg Char.toNat (hk l (List.mem_cons_self _ _))
        rwa [toNat_rust_to_lower] at h
      have hx : x = l ∨ x = rust_to_upper l := by
        have h1 : upper_code x.toNat = l.toNat
            ∨ upper_code x.toNat = upper_code l.toNat := by
          rcases ht'.1 with h | h
          · exact Or.inl (by rw [← toNat_rust_to_upper, h])
          · exact Or.inr (by rw [← toNat_rust_to_upper, h, toNat_rust_to_upper])
        rcases upper_code_preimage hlfix h1 with h | h
        · exact Or.inl (char_eq_of_toNat_eq h)
        · exact Or.inr (char_eq_of_toNat_eq (by rw [h, toNat_rust_to_upper]))
      simp only [List.map_cons, is_variant, Bool.and_eq_true, Bool.or_eq_true,
        decide_eq_true_eq]
      exact ⟨hx, ih xs (fun ch hch => hk ch (List.mem_cons_of_mem _ hch)) ht'.2⟩

theorem is_variant_of_map_lower : ∀ (k t : List Char),
    (∀ ch ∈ k, rust_to_lower ch = ch) →
    is_variant k (k.map rust_to_upper) (t.map rust_to_lower) = true →
    is_variant k (k.map rust_to_upper) t = true := by
  intro k
  induction k with
  | nil =>
    intro t hk ht
    cases t with
    | nil => rfl
    | cons a l => simp [is_variant] at ht
  | cons l ls ih =>
    intro t hk ht
    cases t with
    | nil => simp [is_variant] at ht
    | cons x xs =>
      have ht' : (rust_to_lower x = l ∨ rust_to_lower x = rust_to_upper l)
          ∧ is_variant ls (ls.map rust_to_upper) (xs.map rust_to_lower) = true := by
        simpa only [List.map_cons, is_variant, Bool.and_eq_true, Bool.or_eq_true,
          decide_eq_true_eq] using ht
      have hlfix : lower_code l.toNat = l.toNat := by
        have h := congrArg Char.toNat (hk l (List.mem_cons_self _ _))
        rwa [toNat_rust_to_lower] at h
      have hx : x = l ∨ x = rust_to_upper l := by
        have h1 : lower_code x.toNat = l.toNat
            ∨ lower_code x.toNat = upper_code l.toNat := by
          rcases ht'.1 with h | h
          · exact Or.inl (by rw [← toNat_rust_to_lower, h])
          · exact Or.inr (by rw [← toNat_rust_to_lower, h, toNat_rust_to_upper])
        rcases lower_code_preimage hlfix h1 with h | h
        · exact Or.inl (char_eq_of_toNat_eq h)
        · exact Or.inr (char_eq_of_toNat_eq (by rw [h, toNat_rust_to_upper]))
      simp only [List.map_cons, is_variant, Bool.and_eq_true, Bool.or_eq_true,
        decide_eq_true_eq]
      exact ⟨hx, ih xs (fun ch hch => hk ch (List.mem_cons_of_mem _ hch)) ht'.2⟩

theorem variant_upper_invariant (k : List Char)
    (hk : ∀ ch ∈ k, rust_to_lower ch = ch) (x : List Char) :
    is_variant k (k.map rust_to_upper) (x.map rust_to_upper)
      = is_variant k (k.map rust_to_upper) x := by
  apply Bool.eq_iff_iff.mpr
  constructor
  · exact fun h => is_variant_of_map_upper k x hk h
  · intro h
    rw [is_variant_map_upper k x hk h]
    exact is_variant_uc k (k.map rust_to_upper) (List.length_map _ _).symm

theorem variant_lower_invariant (k : List Char)
    (hk : ∀ ch ∈ k, rust_to_lower ch = ch) (x : List Char) :
    is_variant k (k.map rust_to_upper) (x.map rust_to_lower)
      = is_variant k (k.map rust_to_upper) x := by
  apply Bool.eq_iff_iff.mpr
  constructor
  · exact fun h => is_variant_of_map_lower k x hk h
  · intro h
    rw [is_variant_map_lower k x hk h]
    exact is_variant_self k (k.map rust_to_upper) (List.length_map _ _).symm

/-! ### Case invariance of the table lookup

The key set inserted by one `insert_all` call for a Katakana-fixed,
lower-case key is exactly the set of case variants of the key, all bound
to the same value, so lookups with the upper- or lower-cased query agree
with the original query on every table built from such entries. -/

theorem insert_all_pairs_keys {k v x : List Char}
    (hkat : k.map hiragana_to_katakana = k) :
    (∃ w, (x, w) ∈ insert_all_pairs k v)
      ↔ is_variant k (k.map rust_to_upper) x = true := by
  constructor
  · rintro ⟨w, hw⟩
    rcases (insert_all_pairs_spec hw).2 with h | h | h | h
    · rw [show x = k from h]
      exact is_variant_self k (k.map rust_to_upper) (List.length_map _ _).symm
    · rw [show x = k.map hiragana_to_katakana from h, hkat]
      exact is_variant_self k (k.map rust_to_upper) (List.length_map _ _).symm
    · rw [show x = k.map rust_to_upper from h]
      exact is_variant_uc k (k.map rust_to_upper) (List.length_map _ _).symm
    · obtain ⟨t, ht, hxt⟩ := (gen_keys_list_iff k (k.map rust_to_upper) [] x
        (List.length_map _ _).symm).mp h
      rw [hxt, List.nil_append]
      exact ht
  · intro hv
    refine ⟨v, ?_⟩
    unfold insert_all_pairs
    dsimp only
    by_cases hup : (k.map rust_to_upper) = k
    · rw [if_neg (not_not_intro hup), if_neg (not_not_intro hkat)]
      rw [hup] at hv
      rw [is_variant_same k x hv]
      exact List.mem_singleton.mpr rfl
    · rw [if_pos hup]
      by_cases hlen : (k.map rust_to_upper).length = 1
      · rw [if_pos hlen]
        rw [List.length_map] at hlen
        obtain ⟨k0, rfl⟩ : ∃ k0, k = [k0] := by
          cases k with
          | nil => simp at hlen
          | cons a t =>
            cases t with
            | nil => exact ⟨a, rfl⟩
            | cons b t2 => simp at hlen
        cases x with
        | nil => simp [is_variant] at hv
        | cons x0 xs =>
          have hv' : (x0 = k0 ∨ x0 = rust_to_upper k0)
              ∧ is_variant [] [] xs = true := by
            simpa only [List.map_cons, List.map_nil, is_variant, Bool.and_eq_true,
              Bool.or_eq_true, decide_eq_true_eq] using hv
          have hxs : xs = [] := by
            cases xs with
            | nil => rfl
            | cons a t =>
              have h2 := hv'.2
              simp [is_variant] at h2
          subst hxs
          rw [if_neg (not_not_intro hkat)]
          rcases hv'.1 with h1 | h1
          · subst h1
            exact List.mem_cons.mpr (Or.inr (List.mem_cons_self _ _))
          · subst h1
            exact List.mem_cons_self _ _
      · rw [if_neg hlen]
        apply List.mem_append.mpr
        left
        apply List.mem_map.mpr
        refine ⟨x, ?_, rfl⟩
        apply List.mem_reverse.mpr
        exact (gen_keys_list_iff k (k.map rust_to_upper) [] x
          (List.length_map _ _).symm).mpr ⟨x, hv, (List.nil_append x).symm⟩

theorem lookup_append (a b : List (List Char × List Char)) (key : List Char) :
    lookup_table (a ++ b) key
      = match lookup_table a key with
        | some v => some v
        | none => lookup_table b key := by
  induction a with
  | nil => rfl
  | cons p rest ih =>
    obtain ⟨k, v⟩ := p
    by_cases h : key = k
    · simp [lookup_table, h]
    · simp [lookup_table, h, ih]

theorem lookup_all_value {m : List (List Char × List Char)} {v key : List Char}
    (hv : ∀ p ∈ m, p.2 = v) (hk : ∃ p ∈ m, p.1 = key) :
    lookup_table m key = some v := by
  induction m with
  | nil =>
    obtain ⟨p, hp, hpk⟩ := hk
    simp at hp
  | cons q rest ih =>
    obtain ⟨k0, v0⟩ := q
    show (if key = k0 then some v0 else lookup_table rest key) = some v
    by_cases h : key = k0
    · rw [if_pos h]
      rw [show v0 = v from hv (k0, v0) (List.mem_cons_self _ _)]
    · rw [if_neg h]
      apply ih (fun p hp => hv p (List.mem_cons_of_mem _ hp))
      obtain ⟨p, hp, hpk⟩ := hk
      rcases List.mem_cons.mp hp with rfl | hp2
      · exact absurd hpk.symm h
      · exact ⟨p, hp2, hpk⟩

theorem lookup_none_of_no_key {m : List (List Char × List Char)} {key : List Char}
    (h : ∀ p ∈ m, p.1 ≠ key) : lookup_table m key = none := by
  induction m with
  | nil => rfl
  | cons q rest ih =>
    obtain ⟨k0, v0⟩ := q
    show (if key = k0 then some v0 else lookup_table rest key) = none
    rw [if_neg (fun he => h (k0, v0) (List.mem_cons_self _ _) he.symm)]
    exact ih (fun p hp => h p (List.mem_cons_of_mem _ hp))

theorem lookup_insert_all {k v x : List Char}
    (hkat : k.map hiragana_to_katakana = k) :
    lookup_table (insert_all_pairs k v) x
      = if is_variant k (k.map rust_to_upper) x = true then some v else none := by
  by_cases hv : is_variant k (k.map rust_to_upper) x = true
  · rw [if_pos hv]
    apply lookup_all_value
    · intro p hp
      exact (insert_all_pairs_spec hp).1
    · obtain ⟨w, hw⟩ := (insert_all_pairs_keys hkat).mpr hv
      exact ⟨(x, w), hw, rfl⟩
  · rw [if_neg hv]
    apply lookup_none_of_no_key
    intro p hp he
    exact hv ((insert_all_pairs_keys hkat).mp ⟨p.2, by rw [← he]; exact hp⟩)

theorem lookup_foldl_sigma (σ : Char → Char)
    (hvar : ∀ k : List Char, (∀ ch ∈ k, rust_to_lower ch = ch) →
      ∀ x : List Char, is_variant k (k.map rust_to_upper) (x.map σ)
        = is_variant k (k.map rust_to_upper) x) :
    ∀ (entries acc : List (List Char × List Char)),
      (∀ kv ∈ entries, kv.1.map hiragana_to_katakana = kv.1
        ∧ (∀ ch ∈ kv.1, rust_to_lower ch = ch)) →
      (∀ y : List Char, lookup_table acc (y.map σ) = lookup_table acc y) →
      ∀ y : List Char,
        lookup_table
            (entries.foldl (fun m kv => insert_all_pairs kv.1 kv.2 ++ m) acc)
            (y.map σ)
          = lookup_table
            (entries.foldl (fun m kv => insert_all_pairs kv.1 kv.2 ++ m) acc) y := by
  intro entries
  induction entries with
  | nil =>
    intro acc _ hacc y
    exact hacc y
  | cons kv rest ih =>
    intro acc hgood hacc y
    rw [List.foldl_cons]
    refine ih (insert_all_pairs kv.1 kv.2 ++ acc)
      (fun p hp => hgood p (List.mem_cons_of_mem _ hp)) ?_ y
    intro z
    rw [lookup_append, lookup_append]
    have hg := hgood kv (List.mem_cons_self _ _)
    rw [lookup_insert_all hg.1, lookup_insert_all hg.1]
    rw [hvar kv.1 hg.2 z, hacc z]

theorem to_hiragana_base_good :
    ∀ kv ∈ to_hiragana_base, kv.1.map hiragana_to_katakana = kv.1
      ∧ (∀ ch ∈ kv.1, rust_to_lower ch = ch) := by
  decide

theorem lookup_to_hiragana_upper (x : List Char) :
    lookup_table TO_HIRAGANA (x.map rust_to_upper) = lookup_table TO_HIRAGANA x :=
  lookup_foldl_sigma rust_to_upper variant_upper_invariant to_hiragana_base []
    to_hiragana_base_good (fun _ => rfl) x

theorem lookup_to_hiragana_lower (x : List Char) :
    lookup_table TO_HIRAGANA (x.map rust_to_lower) = lookup_table TO_HIRAGANA x :=
  lookup_foldl_sigma rust_to_lower variant_lower_invariant to_hiragana_base []
    to_hiragana_base_good (fun _ => rfl) x

theorem to_hiragana_base_vals :
    ∀ kv ∈ to_hiragana_base, kv.2.map rust_to_upper = kv.2
      ∧ kv.2.map rust_to_lower = kv.2 := by
  decide

theorem to_hiragana_vals {p : List Char × List Char} (hp : p ∈ TO_HIRAGANA) :
    p.2.map rust_to_upper = p.2 ∧ p.2.map rust_to_lower = p.2 := by
  obtain ⟨kv, hkv, hpp⟩ := mem_build_table hp
  rw [(insert_all_pairs_spec hpp).1]
  exact to_hiragana_base_vals kv hkv

theorem find_chunk_map (σ : Char → Char)
    (hlookup : ∀ x : List Char,
      lookup_table TO_HIRAGANA (x.map σ) = lookup_table TO_HIRAGANA x)
    (src : List Char) :
    ∀ mx : Nat, find_chunk TO_HIRAGANA (src.map σ) mx
      = Option.map (fun p => (p.1.map σ, p.2)) (find_chunk TO_HIRAGANA src mx) := by
  intro mx
  induction mx with
  | zero => rfl
  | succ len ih =>
    show (match lookup_table TO_HIRAGANA ((src.map σ).take (len + 1)) with
      | some v => some ((src.map σ).take (len + 1), v)
      | none => find_chunk TO_HIRAGANA (src.map σ) len)
      = Option.map (fun p => (p.1.map σ, p.2))
        (match lookup_table TO_HIRAGANA (src.take (len + 1)) with
          | some v => some (src.take (len + 1), v)
          | none => find_chunk TO_HIRAGANA src len)
    rw [← List.map_take]
    rw [hlookup (src.take (len + 1))]
    rcases h : lookup_table TO_HIRAGANA (src.take (len + 1)) with _ | v
    · exact ih
    · rfl

/-- The `to_hiragana` iteration on a double consonant: emit a small tsu
and move on by one character. -/
theorem to_hiragana_dc_cons (next : Char) (rest : List Char)
    (h1 : ¬(char_in_range next KATAKANA_START KATAKANA_TO_HIRAGANA_END = true))
    (h2 : ¬(char_in_range next HIRAGANA_START HIRAGANA_END = true))
    (h3 : next ≠ 'n' ∧ next ≠ 'N' ∧ is_consonant next true = true
      ∧ rest.head? = some next) :
    to_hiragana (next :: rest) = 'っ' :: to_hiragana rest := by
  rw [to_hiragana_cons]
  have hstep : to_hiragana_step next rest = (['っ'], 0) := by
    unfold to_hiragana_step
    rw [if_neg h1, if_neg h2, if_pos h3]
  rw [hstep]
  simp

/-- The `to_hiragana` iteration on a table match: emit the matched kana
and skip the rest of the matched chunk. -/
theorem to_hiragana_chunk_cons (next : Char) (rest chunk kana : List Char)
    (h1 : ¬(char_in_range next KATAKANA_START KATAKANA_TO_HIRAGANA_END = true))
    (h2 : ¬(char_in_range next HIRAGANA_START HIRAGANA_END = true))
    (h3 : ¬(next ≠ 'n' ∧ next ≠ 'N' ∧ is_consonant next true = true
      ∧ rest.head? = some next))
    (h4 : find_chunk TO_HIRAGANA (next :: rest)
      (if next = ':' ∨ 0x61 ≤ next.toNat ∧ next.toNat ≤ 0x7A
          ∨ 0x41 ≤ next.toNat ∧ next.toNat ≤ 0x5A then
        TO_HIRAGANA_MAX_CHUNK else 1) = some (chunk, kana)) :
    to_hiragana (next :: rest)
      = kana ++ to_hiragana (rest.drop (chunk.length - 1)) := by
  rw [to_hiragana_cons]
  have hstep : to_hiragana_step next rest = (kana, chunk.length - 1) := by
    unfold to_hiragana_step
    rw [if_neg h1, if_neg h2, if_neg h3]
    dsimp only
    rw [h4]
  rw [hstep]

/-- Core case-invariance of `to_hiragana`: any per-character map that is
the identity on the CJK blocks, keeps other characters out of them,
respects the consonant test, the n test and the max-chunk test, cannot
merge distinct adjacent characters except as recorded by `bad_pair`, and
leaves the lookup and the table values invariant, commutes with
`to_hiragana` on `case_safe` inputs. -/
theorem to_hiragana_sigma_commute (σ : Char → Char)
    (hfix : ∀ c : Char, 0x3000 ≤ c.toNat → σ c = c)
    (hsmall : ∀ c : Char, c.toNat < 0x3000 → (σ c).toNat < 0x3000)
    (hcons : ∀ (c : Char) (y : Bool), is_consonant (σ c) y = is_consonant c y)
    (hnN : ∀ c : Char, (σ c = 'n' ∨ σ c = 'N') ↔ (c = 'n' ∨ c = 'N'))
    (hletter : ∀ c : Char,
      (σ c = ':' ∨ 0x61 ≤ (σ c).toNat ∧ (σ c).toNat ≤ 0x7A
        ∨ 0x41 ≤ (σ c).toNat ∧ (σ c).toNat ≤ 0x5A)
      ↔ (c = ':' ∨ 0x61 ≤ c.toNat ∧ c.toNat ≤ 0x7A
        ∨ 0x41 ≤ c.toNat ∧ c.toNat ≤ 0x5A))
    (hbad : ∀ c1 c2 : Char, σ c1 = σ c2 → c1 ≠ c2 →
      rust_to_upper c1 = rust_to_upper c2 ∨ rust_to_lower c1 = rust_to_lower c2)
    (hlookup : ∀ x : List Char,
      lookup_table TO_HIRAGANA (x.map σ) = lookup_table TO_HIRAGANA x)
    (hvals : ∀ p : List Char × List Char, p ∈ TO_HIRAGANA → p.2.map σ = p.2) :
    ∀ (n : Nat) (s : List Char), s.length ≤ n → case_safe s = true →
      to_hiragana (s.map σ) = (to_hiragana s).map σ := by
  have hnotrange : ∀ (c : Char) (a b : Nat), 0x3000 ≤ a →
      ¬(char_in_range c a b = true) → ¬(char_in_range (σ c) a b = true) := by
    intro c a b ha hnc h
    by_cases hc3 : 0x3000 ≤ c.toNat
    · rw [hfix c hc3] at h
      exact hnc h
    · have hs1 := hsmall c (by omega)
      have hs2 := char_in_range_iff.mp h
      omega
  intro n
  induction n with
  | zero =>
    intro s hlen _
    have hs : s = [] := List.eq_nil_of_length_eq_zero (Nat.le_zero.mp hlen)
    subst hs
    rfl
  | succ n ih =>
    intro s hlen hcs
    cases s with
    | nil => rfl
    | cons c rest =>
      have hlen1 : rest.length ≤ n := by simpa using hlen
      rw [List.map_cons]
      by_cases hkat : char_in_range c KATAKANA_START KATAKANA_TO_HIRAGANA_END = true
      · have hb : (0x30A1 : Nat) ≤ c.toNat ∧ c.toNat ≤ 0x30F6 :=
          char_in_range_iff.mp hkat
        rw [hfix c (by omega)]
        rw [to_hiragana_katakana_cons c (rest.map σ) hkat,
          to_hiragana_katakana_cons c rest hkat, List.map_cons]
        have hoff : KATAKANA_TO_HIRAGANA_OFFSET_SUB = 0x60 := rfl
        have hvalid : (c.toNat - KATAKANA_TO_HIRAGANA_OFFSET_SUB).isValidChar :=
          Or.inl (by omega)
        rw [hfix (Char.ofNat (c.toNat - KATAKANA_TO_HIRAGANA_OFFSET_SUB))
          (by rw [char_toNat_ofNat hvalid]; omega)]
        rw [ih rest hlen1 (case_safe_tail hcs)]
      · by_cases hhira : char_in_range c HIRAGANA_START HIRAGANA_END = true
        · have hb : (0x3041 : Nat) ≤ c.toNat ∧ c.toNat ≤ 0x3096 :=
            char_in_range_iff.mp hhira
          rw [hfix c (by omega)]
          rw [to_hiragana_hira_cons c (rest.map σ) hhira,
            to_hiragana_hira_cons c rest hhira, List.map_cons]
          rw [hfix c (by omega)]
          rw [ih rest hlen1 (case_safe_tail hcs)]
        · have hkatσ := hnotrange c KATAKANA_START KATAKANA_TO_HIRAGANA_END
            (by decide) hkat
          have hhiraσ := hnotrange c HIRAGANA_START HIRAGANA_END (by decide) hhira
          by_cases hdc : c ≠ 'n' ∧ c ≠ 'N' ∧ is_consonant c true = true
              ∧ rest.head? = some c
          · obtain ⟨hd1, hd2, hd3, hd4⟩ := hdc
            have hdcσ : σ c ≠ 'n' ∧ σ c ≠ 'N' ∧ is_consonant (σ c) true = true
                ∧ (rest.map σ).head? = some (σ c) := by
              refine ⟨?_, ?_, ?_, ?_⟩
              · intro he
                rcases (hnN c).mp (Or.inl he) with h | h
                · exact hd1 h
                · exact hd2 h
              · intro he
                rcases (hnN c).mp (Or.inr he) with h | h
                · exact hd1 h
                · exact hd2 h
              · rw [hcons c true]
                exact hd3
              · cases rest with
                | nil => simp at hd4
                | cons r0 rr =>
                  have hr : r0 = c := by simpa using hd4
                  rw [List.map_cons, hr]
                  rfl
            rw [to_hiragana_dc_cons (σ c) (rest.map σ) hkatσ hhiraσ hdcσ,
              to_hiragana_dc_cons c rest hkat hhira ⟨hd1, hd2, hd3, hd4⟩,
              List.map_cons, hfix 'っ' (by decide)]
            rw [ih rest hlen1 (case_safe_tail hcs)]
          · have hdcσn : ¬(σ c ≠ 'n' ∧ σ c ≠ 'N' ∧ is_consonant (σ c) true = true
                ∧ (rest.map σ).head? = some (σ c)) := by
              rintro ⟨h1, h2, h3, h4⟩
              have hc1 : is_consonant c true = true := by
                rw [← hcons c true]
                exact h3
              have hn1 : c ≠ 'n' := by
                intro he
                rcases (hnN c).mpr (Or.inl he) with h | h
                · exact h1 h
                · exact h2 h
              have hn2 : c ≠ 'N' := by
                intro he
                rcases (hnN c).mpr (Or.inr he) with h | h
                · exact h1 h
                · exact h2 h
              cases rest with
              | nil => simp at h4
              | cons r0 rr =>
                have h4s : σ r0 = σ c := by simpa using h4
                have hr0 : r0 ≠ c := by
                  intro he
                  exact hdc ⟨hn1, hn2, hc1, by rw [he]; rfl⟩
                have hbp : bad_pair c r0 = true := by
                  have hb2 := hbad c r0 h4s.symm (fun he => hr0 he.symm)
                  simp only [bad_pair, Bool.and_eq_true, Bool.or_eq_true,
                    decide_eq_true_eq]
                  exact ⟨⟨⟨⟨hc1, hn1⟩, hn2⟩, fun he => hr0 he.symm⟩, hb2⟩
                have hcsh := case_safe_head hcs
                rw [hbp] at hcsh
                simp at hcsh
            have hmc : (if σ c = ':' ∨ 0x61 ≤ (σ c).toNat ∧ (σ c).toNat ≤ 0x7A
                  ∨ 0x41 ≤ (σ c).toNat ∧ (σ c).toNat ≤ 0x5A then
                  TO_HIRAGANA_MAX_CHUNK else 1)
                = (if c = ':' ∨ 0x61 ≤ c.toNat ∧ c.toNat ≤ 0x7A
                  ∨ 0x41 ≤ c.toNat ∧ c.toNat ≤ 0x5A then
                  TO_HIRAGANA_MAX_CHUNK else 1) :=
              if_congr (hletter c) rfl rfl
            have hfm := find_chunk_map σ hlookup (c :: rest)
              (if c = ':' ∨ 0x61 ≤ c.toNat ∧ c.toNat ≤ 0x7A
                ∨ 0x41 ≤ c.toNat ∧ c.toNat ≤ 0x5A then
                TO_HIRAGANA_MAX_CHUNK else 1)
            rcases hfc : find_chunk TO_HIRAGANA (c :: rest)
                (if c = ':' ∨ 0x61 ≤ c.toNat ∧ c.toNat ≤ 0x7A
                  ∨ 0x41 ≤ c.toNat ∧ c.toNat ≤ 0x5A then
                  TO_HIRAGANA_MAX_CHUNK else 1) with _ | p
            · have hfcσ : find_chunk TO_HIRAGANA (σ c :: rest.map σ)
                  (if σ c = ':' ∨ 0x61 ≤ (σ c).toNat ∧ (σ c).toNat ≤ 0x7A
                    ∨ 0x41 ≤ (σ c).toNat ∧ (σ c).toNat ≤ 0x5A then
                    TO_HIRAGANA_MAX_CHUNK else 1) = none := by
                rw [hmc, ← List.map_cons, hfm, hfc]
                rfl
              rw [to_hiragana_pass (σ c) (rest.map σ) hkatσ hhiraσ hdcσn hfcσ,
                to_hiragana_pass c rest hkat hhira hdc hfc, List.map_cons]
              rw [ih rest hlen1 (case_safe_tail hcs)]
            · obtain ⟨chunk, kana⟩ := p
              have hfcσ : find_chunk TO_HIRAGANA (σ c :: rest.map σ)
                  (if σ c = ':' ∨ 0x61 ≤ (σ c).toNat ∧ (σ c).toNat ≤ 0x7A
                    ∨ 0x41 ≤ (σ c).toNat ∧ (σ c).toNat ≤ 0x5A then
                    TO_HIRAGANA_MAX_CHUNK else 1)
                  = some (chunk.map σ, kana) := by
                rw [hmc, ← List.map_cons, hfm, hfc]
                rfl
              rw [to_hiragana_chunk_cons (σ c) (rest.map σ) (chunk.map σ) kana
                  hkatσ hhiraσ hdcσn hfcσ,
                to_hiragana_chunk_cons c rest chunk kana hkat hhira hdc hfc]
              have hmem : (chunk, kana) ∈ TO_HIRAGANA := by
                obtain ⟨l, hl1, hl2, hl3, hl4⟩ := find_chunk_some hfc
                exact lookup_table_mem hl4
              have hkv : kana.map σ = kana := hvals (chunk, kana) hmem
              rw [List.map_append, hkv, List.length_map, ← List.map_drop]
              rw [ih (rest.drop (chunk.length - 1))
                (by rw [List.length_drop]; omega)
                (case_safe_drop _ (case_safe_tail hcs))]

theorem to_hiragana_upper_case (s : List Char) (hcs : case_safe s = true) :
    to_hiragana (s.map rust_to_upper) = (to_hiragana s).map rust_to_upper :=
  to_hiragana_sigma_commute rust_to_upper
    (fun _ h => rust_to_upper_fixed h)
    (fun _ h => rust_to_upper_small h)
    is_consonant_upper upper_nN_iff upper_letter_iff
    (fun _ _ he _ => Or.inl he)
    lookup_to_hiragana_upper
    (fun _ hp => (to_hiragana_vals hp).1)
    s.length s (Nat.le_refl _) hcs

theorem to_hiragana_lower_case (s : List Char) (hcs : case_safe s = true) :
    to_hiragana (s.map rust_to_lower) = (to_hiragana s).map rust_to_lower :=
  to_hiragana_sigma_commute rust_to_lower
    (fun _ h => rust_to_lower_fixed h)
    (fun _ h => rust_to_lower_small h)
    is_consonant_lower lower_nN_iff lower_letter_iff
    (fun _ _ he _ => Or.inr he)
    lookup_to_hiragana_lower
    (fun _ hp => (to_hiragana_vals hp).2)
    s.length s (Nat.le_refl _) hcs

/-- C4 counterexample: the claim fails on the Romaji input "Kk".  The
double-consonant test of `to_hiragana` is case sensitive (a byte
comparison), so upper-casing first gives `to_hiragana("KK")` = "っK"
while upper-casing the output gives "KK". -/
theorem c4_counterexample_mixed_case_double_consonant :
    to_hiragana ("Kk".data.map rust_to_upper)
      ≠ (to_hiragana "Kk".data).map rust_to_upper := by
  decide

/-- C4 (corrected): on inputs made of Romaji/Hiragana/Katakana characters
with no mixed-case double consonant pair (no adjacent `bad_pair`),
`to_hiragana` commutes with both the upper-case and the lower-case map. -/
theorem c4_case_invariance :
    ∀ s : List Char, (∀ c ∈ s, romaji_kana_char c = true) → case_safe s = true →
      to_hiragana (s.map rust_to_upper) = (to_hiragana s).map rust_to_upper
      ∧ to_hiragana (s.map rust_to_lower) = (to_hiragana s).map rust_to_lower :=
  fun s _ hcs => ⟨to_hiragana_upper_case s hcs, to_hiragana_lower_case s hcs⟩

theorem c4_witness :
    ((∀ c ∈ "kana".data, romaji_kana_char c = true) ∧ case_safe "kana".data = true)
    ∧ to_hiragana ("kana".data.map rust_to_upper)
        = (to_hiragana "kana".data).map rust_to_upper
    ∧ to_hiragana ("kana".data.map rust_to_lower)
        = (to_hiragana "kana".data).map rust_to_lower :=
  ⟨⟨by decide, by decide⟩,
    (c4_case_invariance "kana".data (by decide) (by decide)).1,
    (c4_case_invariance "kana".data (by decide) (by decide)).2⟩

end Kana
